import Mathlib

/-!
Verification of the parsing/normalisation core of `automacao_cartao.py`
(credit-card statement converter).

The Python source works on single lines of text with `re.search` on
patterns anchored by a leading `^` (no MULTILINE flag, and every string
handed to `re.search` is a single line, so a pattern matches iff it
matches starting at position 0).  We embed the regular expressions with a
small backtracking matcher `mat` that reproduces Python's leftmost,
priority-ordered backtracking (greedy quantifiers try longer first, lazy
quantifiers shorter first, alternatives left first), together with
numbered capture groups.  Character classes are modelled over the ASCII
range actually exercised by the statements (`\d` is `0`-`9`, `\s` is the
six ASCII whitespace characters, `.` is any character other than a
newline).

Python `float` values are modelled as exact rationals: the code performs
no arithmetic on the parsed amounts other than comparison with zero and
storage, so the decimal value is the faithful denotation.  Fallible
Python operations (`float(...)` raising `ValueError`) are modelled with
`Option` / `Except`.
-/

/-- ASCII decimal digit test, the model of the regex class `\d` on the
statement alphabet. -/
def isDig (c : Char) : Bool := 48 ≤ c.toNat && c.toNat ≤ 57

/-- ASCII whitespace test, the model of Python's `\s` class and of the
character set removed by `str.strip()`. -/
def isPySpace (c : Char) : Bool :=
  c == ' ' || c == '\t' || c == '\n' || c == '\r' || c == '\x0b' || c == '\x0c'

/-- Model of Python `str.strip()`: drop ASCII whitespace from both ends. -/
def pyStrip (s : String) : String :=
  String.mk (((s.data.dropWhile isPySpace).reverse.dropWhile isPySpace).reverse)

/-- Model of Python `str.split('\n')`: split a character list at every
newline, keeping empty pieces (so the empty string yields one empty
piece, matching Python). -/
def splitNL : List Char → List (List Char)
  | [] => [[]]
  | c :: rest =>
    let r := splitNL rest
    if c == '\n' then [] :: r
    else
      match r with
      | h :: t => (c :: h) :: t
      | [] => [[c]]

/-- Regular-expression syntax actually used by the three patterns of the
source: character classes, concatenation, alternation (left has
priority), greedy and lazy star, numbered capture groups and the `$`
anchor.  Bounded quantifiers are desugared: `x{2}` into concatenation,
`x{1,3}` into `x(x(x)?)?` with greedy options, `x+` into `x x*`. -/
inductive RE where
  | eps
  | cls (p : Char → Bool)
  | seq (a b : RE)
  | alt (a b : RE)
  | starG (a : RE)
  | starL (a : RE)
  | grp (i : Nat) (a : RE)
  | endA

/-- Capture environment: group index paired with captured text, most
recent first. -/
abbrev Caps := List (Nat × String)

/-- First-success choice used by the backtracking matcher (the model of
trying one alternative and falling back to the next). -/
def oElse (a b : Option Caps) : Option Caps :=
  match a with
  | some v => some v
  | none => b

/-- Backtracking regex matcher in continuation-passing style.  `fuel`
only bounds the recursion depth (it is decremented on every call), so a
run with sufficient fuel returns exactly the first match of Python's
backtracking search; star iterations whose body consumed no input are
cut off, as Python does for empty repeats.  Group captures record the
consumed slice of the input. -/
def mat : Nat → RE → List Char → Caps → (List Char → Caps → Option Caps) → Option Caps
  | 0, _, _, _, _ => none
  | _ + 1, .eps, cs, caps, k => k cs caps
  | _ + 1, .cls p, cs, caps, k =>
    match cs with
    | [] => none
    | c :: cs' => if p c then k cs' caps else none
  | f + 1, .seq a b, cs, caps, k =>
    mat f a cs caps (fun cs2 caps2 => mat f b cs2 caps2 k)
  | f + 1, .alt a b, cs, caps, k =>
    oElse (mat f a cs caps k) (mat f b cs caps k)
  | f + 1, .starG a, cs, caps, k =>
    oElse
      (mat f a cs caps (fun cs2 caps2 =>
        if cs2.length < cs.length then mat f (.starG a) cs2 caps2 k else none))
      (k cs caps)
  | f + 1, .starL a, cs, caps, k =>
    oElse (k cs caps)
      (mat f a cs caps (fun cs2 caps2 =>
        if cs2.length < cs.length then mat f (.starL a) cs2 caps2 k else none))
  | f + 1, .grp i a, cs, caps, k =>
    mat f a cs caps (fun cs2 caps2 =>
      k cs2 ((i, String.mk (cs.take (cs.length - cs2.length))) :: caps2))
  | _ + 1, .endA, cs, caps, k =>
    if cs.isEmpty then k cs caps else none

/-- Fuel budget for a search over `s`.  The matcher only spends one fuel
unit per nesting level of its call tree, and a matching path over the
patterns of this program descends at most a few levels per consumed
character, so this budget never cuts off a real search. -/
def reFuel (s : String) : Nat := 16 * s.length + 128

/-- Model of `re.search(pattern, line)` for a pattern anchored with a
leading `^` on a newline-free string: match at position 0, returning the
captures of the first match in backtracking priority order, or `none`. -/
def reSearch (r : RE) (s : String) : Option Caps :=
  mat (reFuel s) r s.data [] (fun _ caps => some caps)

/-- Captured text of group `i`, the model of `match.group(i)`. -/
def capGet (caps : Caps) (i : Nat) : Option String :=
  (caps.find? (fun p => p.1 == i)).map (fun p => p.2)

/-- Single character class accepting exactly `c`. -/
def lit (c : Char) : RE := .cls (fun x => x == c)

/-- Digit atom `\d`. -/
def dCls : RE := .cls isDig

/-- Whitespace atom `\s`. -/
def spCls : RE := .cls isPySpace

/-- Dot atom `.` (anything but a newline; DOTALL is off). -/
def anyCls : RE := .cls (fun c => !(c == '\n'))

/-- Right-nested concatenation of a list of patterns. -/
def seqs (l : List RE) : RE := l.foldr RE.seq .eps

/-- Greedy `r+` as `r r*`. -/
def rep1G (r : RE) : RE := .seq r (.starG r)

/-- Lazy `r+?` as `r r*?`. -/
def rep1L (r : RE) : RE := .seq r (.starL r)

/-- Greedy `r?`. -/
def optG (r : RE) : RE := .alt r .eps

/-- Greedy `\d{1,3}` as `\d(\d(\d)?)?`, which tries three digits first,
then two, then one, exactly as Python's bounded greedy repeat. -/
def d13 : RE := .seq dCls (optG (.seq dCls (optG dCls)))

/-- Thousands group `\.\d{3}`. -/
def thouDot : RE := seqs [lit '.', dCls, dCls, dCls]

/-- Rate group `[.,]\d{3}`. -/
def thouDC : RE := seqs [.cls (fun c => c == '.' || c == ','), dCls, dCls, dCls]

/-- Brazilian money token `\d{1,3}(?:\.\d{3})*,\d{2}`. -/
def amtRE : RE := seqs [d13, .starG thouDot, lit ',', dCls, dCls]

/-- Trailing rate token `\d{1,3}(?:[.,]\d{3})*`. -/
def rateRE : RE := .seq d13 (.starG thouDC)

/-- Full date token `\d{2}\/\d{2}\/\d{4}`. -/
def dateYRE : RE :=
  seqs [dCls, dCls, lit '/', dCls, dCls, lit '/', dCls, dCls, dCls, dCls]

/-- Short date token `\d{2}\/\d{2}`. -/
def dateShortRE : RE := seqs [dCls, dCls, lit '/', dCls, dCls]

/-- The Santander primary pattern of the source,
`^(\d{2}\/\d{2}\/\d{4})\s+(.+?)\s+(\d{1,3}(?:\.\d{3})*,\d{2})\s+\d{1,3}(?:\.\d{3})*,\d{2}\s+\d{1,3}(?:[.,]\d{3})*`. -/
def santanderRE : RE :=
  seqs [.grp 1 dateYRE, rep1G spCls, .grp 2 (rep1L anyCls), rep1G spCls,
        .grp 3 amtRE, rep1G spCls, amtRE, rep1G spCls, rateRE]

/-- The Santander negative-amount fallback pattern of the source,
`^(\d{2}\/\d{2}\/\d{4})\s+(.+?)\s+(-\d{1,3}(?:\.\d{3})*,\d{2})`. -/
def santanderNegRE : RE :=
  seqs [.grp 1 dateYRE, rep1G spCls, .grp 2 (rep1L anyCls), rep1G spCls,
        .grp 3 (.seq (lit '-') amtRE)]

/-- The Sicoob pattern of the source,
`^(\d{2}\/\d{2})\s+(.+?)\s+([-,]?\d{1,3}(?:\.\d{3})*?[.,]\d{2})$`.
Note the lazy thousands star and the sign class that also accepts a
comma. -/
def sicoobRE : RE :=
  seqs [.grp 1 dateShortRE, rep1G spCls, .grp 2 (rep1L anyCls), rep1G spCls,
        .grp 3 (seqs [optG (.cls (fun c => c == '-' || c == ',')), d13,
                      .starL thouDot, .cls (fun c => c == '.' || c == ','),
                      dCls, dCls]),
        .endA]

/-- Test whether the first list starts with the second, character by
character. -/
def leadsWith : List Char → List Char → Bool
  | _, [] => true
  | [], _ :: _ => false
  | a :: as, b :: bs => a == b && leadsWith as bs

/-- Model of Python's substring test `needle in hay`. -/
def hasSub (hay needle : List Char) : Bool :=
  match hay with
  | [] => needle.isEmpty
  | _ :: t => leadsWith hay needle || hasSub t needle

/-- A parsed statement line, the model of the dict
`{'Data': ..., 'Descricao': ..., 'Valor': ..., 'Observacao': ...}`
appended to `dados` by the two line grammars. -/
structure Transaction where
  data : String
  descricao : String
  valor : ℚ
  observacao : String
deriving DecidableEq

/-- Model of Python `float(s)` restricted to the strings this program can
produce (optional sign, decimal digits, at most one dot, no exponent):
`none` models a raised `ValueError`. -/
def pythonFloat (s : String) : Option ℚ :=
  let signAndRest : ℚ × List Char :=
    match s.data with
    | '-' :: t => (-1, t)
    | '+' :: t => (1, t)
    | cs => (1, cs)
  let sgn := signAndRest.1
  let cs := signAndRest.2
  let ip := cs.takeWhile (fun c => !(c == '.'))
  let rest := cs.dropWhile (fun c => !(c == '.'))
  let digVal : List Char → Nat := fun l => l.foldl (fun a c => 10 * a + (c.toNat - 48)) 0
  match rest with
  | [] =>
    if ip ≠ [] && ip.all isDig then some (sgn * (digVal ip : ℚ)) else none
  | _ :: fp =>
    if (ip ≠ [] || fp ≠ []) && ip.all isDig && fp.all isDig then
      some (sgn * ((digVal ip : ℚ) + (digVal fp : ℚ) / (10 : ℚ) ^ fp.length))
    else none

/-- Model of `valor_str.replace('.', '').replace(',', '.')`: delete every
dot, then turn every comma into a dot. -/
def valorSubst (s : String) : String :=
  String.mk ((s.data.filter (fun c => !(c == '.'))).map
    (fun c => if c == ',' then '.' else c))

/-- One iteration of the Santander loop body on an already stripped,
non-empty line: try the primary pattern and emit a positive-amount
transaction, otherwise try the negative-amount fallback purely to
recognise reversal lines, emitting nothing either way.  `Except.error`
models an uncaught `ValueError` from `float`. -/
def santanderLinha (linha : String) : Except Unit (List Transaction) :=
  match reSearch santanderRE linha with
  | some caps =>
    match capGet caps 1, capGet caps 2, capGet caps 3 with
    | some dataStr, some descStr, some valorStr =>
      match pythonFloat (valorSubst valorStr) with
      | some valor =>
        if 0 < valor then
          .ok [{ data := dataStr, descricao := pyStrip descStr, valor := valor,
                 observacao := pyStrip descStr }]
        else .ok []
      | none => .error ()
    | _, _, _ => .error ()
  | none =>
    match reSearch santanderNegRE linha with
    | some _ => .ok []
    | none => .ok []

/-- The boilerplate test of the Sicoob loop: whether the line contains
one of the literal markers skipped before pattern matching. -/
def sicoobBoiler (linha : String) : Bool :=
  ["SALDO ANTERIOR", "TOTAL", "GASTOS DE"].any
    (fun palavra => hasSub linha.data palavra.data)

/-- One iteration of the Sicoob loop body on an already stripped,
non-empty line: skip boilerplate lines, otherwise match the Sicoob
pattern, and emit a positive-amount transaction whose date is completed
with the statement year. -/
def sicoobLinha (ano : Nat) (linha : String) : Except Unit (List Transaction) :=
  if sicoobBoiler linha then
    .ok []
  else
    match reSearch sicoobRE linha with
    | some caps =>
      match capGet caps 1, capGet caps 2, capGet caps 3 with
      | some dataStr, some descStr, some valorStr =>
        match pythonFloat (valorSubst valorStr) with
        | some valor =>
          if 0 < valor then
            .ok [{ data := dataStr ++ "/" ++ toString ano,
                   descricao := pyStrip descStr, valor := valor,
                   observacao := pyStrip descStr }]
          else .ok []
        | none => .error ()
      | _, _, _ => .error ()
    | none => .ok []

/-- Run a per-line body over the lines of a statement, accumulating the
emitted transactions in line order and propagating a raised exception. -/
def linesRun (f : String → Except Unit (List Transaction)) :
    List String → Except Unit (List Transaction)
  | [] => .ok []
  | l :: ls =>
    match f l with
    | .error e => .error e
    | .ok ts =>
      match linesRun f ls with
      | .error e => .error e
      | .ok rest => .ok (ts ++ rest)

/-- Model of `processar_formato_santander`: split into lines, strip each,
skip blank lines, and run the Santander line body over the rest. -/
def processar_formato_santander (texto : String) : Except Unit (List Transaction) :=
  linesRun santanderLinha
    (((splitNL texto.data).map (fun l => pyStrip (String.mk l))).filter
      (fun l => l ≠ ""))

/-- Model of `processar_formato_sicoob`: split into lines, strip each,
keep the non-empty ones, and run the Sicoob line body over them with the
supplied statement year. -/
def processar_formato_sicoob (texto : String) (ano : Nat) :
    Except Unit (List Transaction) :=
  linesRun (sicoobLinha ano)
    (((splitNL texto.data).map (fun l => pyStrip (String.mk l))).filter
      (fun l => l ≠ ""))


/-- Concatenation of thousands groups, each rendered as a dot followed
by its three digits. -/
def thouCat (gs : List (List Char)) : List Char :=
  match gs with
  | [] => []
  | g :: t => '.' :: g ++ thouCat t

/-- Concatenation of rate groups, each a dot-or-comma separator followed
by its three digits. -/
def rateCat (gs : List (Char × List Char)) : List Char :=
  match gs with
  | [] => []
  | (sep, g) :: t => sep :: g ++ rateCat t

/-- Token shape `DD/MM/YYYY`: ten characters, digits around two slashes. -/
def DateShape (l : List Char) : Prop :=
  ∃ a b c d e f g h,
    l = [a, b, '/', c, d, '/', e, f, g, h] ∧
    isDig a = true ∧ isDig b = true ∧ isDig c = true ∧ isDig d = true ∧
    isDig e = true ∧ isDig f = true ∧ isDig g = true ∧ isDig h = true

/-- Token shape of a primary amount: one to three leading digits, any
number of dot-separated three-digit groups, a comma and two decimals. -/
def AmtShape (l : List Char) : Prop :=
  ∃ d0 gs f1 f2,
    l = d0 ++ (thouCat gs ++ ',' :: f1 :: [f2]) ∧
    d0 ≠ [] ∧ d0.length ≤ 3 ∧ (∀ c ∈ d0, isDig c = true) ∧
    (∀ g ∈ gs, g.length = 3 ∧ ∀ c ∈ g, isDig c = true) ∧
    isDig f1 = true ∧ isDig f2 = true

/-- Token shape of a trailing rate: one to three leading digits and any
number of dot-or-comma separated three-digit groups. -/
def RateShape (l : List Char) : Prop :=
  ∃ d0 gs,
    l = d0 ++ rateCat gs ∧
    d0 ≠ [] ∧ d0.length ≤ 3 ∧ (∀ c ∈ d0, isDig c = true) ∧
    (∀ p ∈ gs, (p.1 == '.' || p.1 == ',') = true ∧ p.2.length = 3 ∧
      ∀ c ∈ p.2, isDig c = true)

/-- Sized membership derivations for the regex language (no `$` anchor):
`LangN n r xs` says `r` can match exactly `xs`, by a derivation with `n`
nodes, where every star iteration consumes input.  The size gives an
upper bound on the matcher depth needed for the corresponding search
path. -/
inductive LangN : Nat → RE → List Char → Prop where
  | leps : LangN 1 .eps []
  | lcls {p : Char → Bool} {c : Char} : p c = true → LangN 1 (.cls p) [c]
  | lseq {m n : Nat} {a b : RE} {xs ys : List Char} :
      LangN m a xs → LangN n b ys → LangN (m + n + 1) (.seq a b) (xs ++ ys)
  | laltL {m : Nat} {a : RE} {xs : List Char} (b : RE) :
      LangN m a xs → LangN (m + 1) (.alt a b) xs
  | laltR {n : Nat} {b : RE} {xs : List Char} (a : RE) :
      LangN n b xs → LangN (n + 1) (.alt a b) xs
  | lgrp {m : Nat} {a : RE} {xs : List Char} (i : Nat) :
      LangN m a xs → LangN (m + 1) (.grp i a) xs
  | lgstar0 {a : RE} : LangN 1 (.starG a) []
  | lgstarS {m n : Nat} {a : RE} {xs ys : List Char} :
      LangN m a xs → xs ≠ [] → LangN n (.starG a) ys →
      LangN (m + n + 1) (.starG a) (xs ++ ys)
  | llstar0 {a : RE} : LangN 1 (.starL a) []
  | llstarS {m n : Nat} {a : RE} {xs ys : List Char} :
      LangN m a xs → xs ≠ [] → LangN n (.starL a) ys →
      LangN (m + n + 1) (.starL a) (xs ++ ys)

/-- Decimal digit character for a digit value (used to model zero-padded
`strftime` rendering). -/
def digChar (n : Nat) : Char :=
  match n with
  | 0 => '0' | 1 => '1' | 2 => '2' | 3 => '3' | 4 => '4'
  | 5 => '5' | 6 => '6' | 7 => '7' | 8 => '8' | _ => '9'

/-- Two-digit zero-padded rendering, as `strftime('%d')` / `('%m')`. -/
def pad2 (n : Nat) : List Char := [digChar (n / 10 % 10), digChar (n % 10)]

/-- Four-digit zero-padded rendering, as `strftime('%Y')` on the years
this program parses. -/
def pad4 (n : Nat) : List Char :=
  [digChar (n / 1000 % 10), digChar (n / 100 % 10), digChar (n / 10 % 10),
   digChar (n % 10)]

/-- A calendar date as parsed by `pd.to_datetime(..., format='%d/%m/%Y')`. -/
structure SDate where
  y : Nat
  m : Nat
  d : Nat
deriving DecidableEq

/-- Gregorian leap-year rule, as used by pandas date validation. -/
def isLeap (y : Nat) : Bool := y % 4 == 0 && (y % 100 != 0 || y % 400 == 0)

/-- Number of days of month `m` in year `y`. -/
def daysInMonth (y m : Nat) : Nat :=
  if m == 2 then (if isLeap y then 29 else 28)
  else if m == 4 || m == 6 || m == 9 || m == 11 then 30 else 31

/-- Chronological comparison of parsed dates (year, month, day). -/
def sdateLe (a b : SDate) : Bool :=
  a.y < b.y || (a.y == b.y && (a.m < b.m || (a.m == b.m && a.d ≤ b.d)))

/-- Read one or two leading decimal digits, greedily, as `strptime`'s
`%d` and `%m` directives accept both zero-padded and bare one-digit
components. -/
def take12 : List Char → Option (Nat × List Char)
  | [] => none
  | a :: rest =>
    if isDig a then
      match rest with
      | b :: rest2 =>
        if isDig b then some (10 * (a.toNat - 48) + (b.toNat - 48), rest2)
        else some (a.toNat - 48, rest)
      | [] => some (a.toNat - 48, [])
    else none

/-- Read a day token: besides the one- and two-digit forms, `strptime`'s
`%d` pattern has an alternative for a space-padded nonzero digit
(`' 5'`); the `%m` pattern has no such alternative. -/
def takeDay (cs : List Char) : Option (Nat × List Char) :=
  match cs with
  | ' ' :: b :: rest =>
    if isDig b && !(b == '0') then some (b.toNat - 48, rest) else none
  | _ => take12 cs

/-- Read exactly four leading decimal digits, as `strptime`'s `%Y`
directive does. -/
def take4 : List Char → Option (Nat × List Char)
  | a :: b :: c :: d :: rest =>
    if isDig a && isDig b && isDig c && isDig d then
      some (1000 * (a.toNat - 48) + 100 * (b.toNat - 48) +
        10 * (c.toNat - 48) + (d.toNat - 48), rest)
    else none
  | _ => none

/-- Model of `pd.to_datetime(s, format='%d/%m/%Y', errors='coerce')` on a
single cell, `none` modelling `NaT`: day and month match one or two
digits and the day also a space-padded digit (so `5/3/2024` parses, as
with `strptime`), the year exactly four,
nothing may remain after the year, the day must exist in the month, and a
parsed date outside the `pd.Timestamp` range — whose midnights span
1677-09-22 through 2262-04-11 — raises `OutOfBoundsDatetime`, which
`errors='coerce'` turns into `NaT` (so `01/01/1500` is dropped). -/
def parseDMY (s : String) : Option SDate :=
  match takeDay s.data with
  | none => none
  | some (dd, r1) =>
    match r1 with
    | '/' :: r2 =>
      match take12 r2 with
      | none => none
      | some (mm, r3) =>
        match r3 with
        | '/' :: r4 =>
          match take4 r4 with
          | none => none
          | some (yy, r5) =>
            if r5.isEmpty && (1 ≤ mm && mm ≤ 12) &&
                (1 ≤ dd && dd ≤ daysInMonth yy mm) &&
                sdateLe ⟨1677, 9, 22⟩ ⟨yy, mm, dd⟩ &&
                sdateLe ⟨yy, mm, dd⟩ ⟨2262, 4, 11⟩ then
              some ⟨yy, mm, dd⟩
            else none
        | _ => none
    | _ => none

/-- Model of `.dt.strftime('%d/%m/%Y')` on one parsed date. -/
def renderDMY (dt : SDate) : String :=
  String.mk (pad2 dt.d ++ '/' :: pad2 dt.m ++ '/' :: pad4 dt.y)

/-- A spreadsheet cell as written by `processar_fatura`: the row dict
holds strings (dates, descriptions, the empty default) and the float
amount. -/
inductive Cell where
  | s (v : String)
  | q (v : ℚ)
deriving DecidableEq

/-- A row of the output table: the insertion-ordered dict
`nova_linha` mapping column names to cell values. -/
abbrev Row := List (String × Cell)

/-- Model of Python dict assignment `r[key] = v`: replace the value in
place if the key is present (dicts keep the original insertion position),
otherwise append the new key. -/
def dictSet (r : Row) (key : String) (v : Cell) : Row :=
  if r.any (fun p => p.1 == key) then
    r.map (fun p => if p.1 == key then (p.1, v) else p)
  else r ++ [(key, v)]

/-- Model of dict lookup `r[key]`. -/
def rowGet (r : Row) (key : String) : Option Cell :=
  (r.find? (fun p => p.1 == key)).map (fun p => p.2)

/-- The candidate date-column names of `identificar_coluna_data`, in
priority order. -/
def possiveis_nomes : List String :=
  ["Data", "Data Vencimento", "Data_Vencimento", "Dt_Vencimento", "Date"]

/-- Model of `identificar_coluna_data`: first exact candidate present in
the template columns, else the first column, else the literal `Data`. -/
def identificar_coluna_data (cols : List String) : String :=
  match possiveis_nomes.find? (fun nome => cols.contains nome) with
  | some nome => nome
  | none => cols.headD "Data"

/-- ASCII lowercasing, the model of `str.lower()` on the template's
column names. -/
def lowerStr (s : String) : String := String.mk (s.data.map Char.toLower)

/-- Whether a column name contains one of a role's keyword substrings
after lowercasing, as in the source's list comprehensions. -/
def matchesKeys (keys : List String) (col : String) : Bool :=
  keys.any (fun k => hasSub (lowerStr col).data k.data)

/-- First column matching a role's keywords (the `[0]` of the source's
filtered list), or `none` when the filtered list is empty. -/
def firstKeyCol (keys : List String) (cols : List String) : Option String :=
  (cols.filter (matchesKeys keys)).head?

/-- Description-role keywords of the source. -/
def descKeys : List String := ["descricao", "description", "desc"]

/-- Value-role keywords of the source. -/
def valorKeys : List String := ["valor", "value", "amount"]

/-- Note-role keywords of the source. -/
def obsKeys : List String := ["observacao", "obs", "observation"]

/-- The empty row: every template column defaulted to the empty string,
in template order. -/
def initRow (cols : List String) : Row :=
  cols.foldl (fun r c => dictSet r c (.s "")) []

/-- Guarded dict assignment: the model of `if matching_columns:
nova_linha[matching_columns[0]] = value`. -/
def condSet (r : Row) (o : Option String) (v : Cell) : Row :=
  match o with
  | some cx => dictSet r cx v
  | none => r

/-- Model of the row-building loop body of `processar_fatura`: default
all columns to the empty string, then assign the date to the resolved
date column and the description/value/note to the first column matching
each role's keywords, skipping roles with no matching column (the date,
description, value and note assignments happen in that order, so on a
collision the later role wins, exactly as the consecutive dict
assignments of the source). -/
def montarLinha (cols : List String) (dcol : String) (t : Transaction) : Row :=
  condSet
    (condSet
      (condSet (dictSet (initRow cols) dcol (.s t.data))
        (firstKeyCol descKeys cols) (.s t.descricao))
      (firstKeyCol valorKeys cols) (.q t.valor))
    (firstKeyCol obsKeys cols) (.s t.observacao)

/-- The projection policy as the spec words it: every template column maps
to the transaction value of the highest-priority role that selected it
(note over value over description over date, matching the assignment
order of the source) or to the empty-string default. -/
def projSpecCell (cols : List String) (t : Transaction) (c : String) : Cell :=
  if firstKeyCol obsKeys cols = some c then .s t.observacao
  else if firstKeyCol valorKeys cols = some c then .q t.valor
  else if firstKeyCol descKeys cols = some c then .s t.descricao
  else if c = identificar_coluna_data cols then .s t.data
  else .s ""

/-- The raw table before date sorting: one projected row per parsed
transaction, in parse order. -/
def montarTabela (cols : List String) (ts : List Transaction) : List Row :=
  ts.map (montarLinha cols (identificar_coluna_data cols))

/-- The sort key of a row: its date cell parsed with
`to_datetime(format='%d/%m/%Y', errors='coerce')`, `none` modelling
`NaT` (missing column, non-string cell or failed parse). -/
def rowKey (dc : String) (r : Row) : Option SDate :=
  match rowGet r dc with
  | some (.s str) => parseDMY str
  | _ => none

/-- Sort-key comparison with `NaT` last, as `sort_values` with the
default `na_position='last'` places missing keys after all dates. -/
def okeyLe (a b : Option SDate × Row) : Bool :=
  match a.1, b.1 with
  | some x, some y => sdateLe x y
  | some _, none => true
  | none, some _ => false
  | none, none => true

/-- Insertion that walks past strictly smaller elements and lands before
equal ones; inserting a list's elements from right to left then gives a
stable ascending sort. -/
def insL (le : α → α → Bool) (x : α) : List α → List α
  | [] => [x]
  | y :: ys => if le y x && !(le x y) then y :: insL le x ys else x :: y :: ys

/-- Stable insertion sort: one concrete function meeting the documented
`sort_values` contract, used to instantiate it in witnesses. -/
def isort (le : α → α → Bool) : List α → List α
  | [] => []
  | x :: xs => insL le x (isort le xs)

/-- Insertion that also walks past equal elements, landing after them. -/
def insLA (le : α → α → Bool) (x : α) : List α → List α
  | [] => [x]
  | y :: ys => if le y x then y :: insLA le x ys else x :: y :: ys

/-- Anti-stable insertion sort: a second function meeting the documented
`sort_values` contract, which reverses each run of equal keys and so
witnesses that the contract promises no stability. -/
def isortA (le : α → α → Bool) : List α → List α
  | [] => []
  | x :: xs => insLA le x (isortA le xs)

/-- What `df.sort_values(by=[dc], ascending=True)` documents about its
result, and nothing more: the output rows are the input rows in some
order that is non-decreasing on the key, with `NaT` keys last.  The
default `kind='quicksort'` (numpy introsort) is explicitly not stable,
so the tie order within equal keys is implementation-defined; the date
block is therefore modelled over an arbitrary function satisfying this
contract. -/
def IsSortValues
    (sortf : List (Option SDate × Row) → List (Option SDate × Row)) : Prop :=
  ∀ l, (sortf l).Perm l ∧ (sortf l).Pairwise (fun a b => okeyLe a b = true)

/-- Model of the date block of `processar_fatura`: convert the date
column with `to_datetime(errors='coerce')`, sort ascending with `NaT`
last using any function `sortf` meeting the `sort_values` contract, drop
the `NaT` rows, and render the kept dates back to `DD/MM/YYYY` strings. -/
def sortAscendingDroppingInvalid
    (sortf : List (Option SDate × Row) → List (Option SDate × Row))
    (dc : String) (rows : List Row) : List Row :=
  let keyed := rows.map (fun r => (rowKey dc r, r))
  let sorted := sortf keyed
  let kept := sorted.filterMap (fun p => p.1.map (fun dt => (dt, p.2)))
  kept.map (fun p => dictSet p.2 dc (.s (renderDMY p.1)))

/-- Model of the table-assembly core of `processar_fatura`: with no
transactions the run stops before building a table; otherwise the raw
table is built and, when the resolved date column is one of the template
columns and the table is non-empty, the date sort-and-drop step is
applied with the ambient `sort_values` implementation `sortf`. -/
def processar_fatura_tabela
    (sortf : List (Option SDate × Row) → List (Option SDate × Row))
    (cols : List String) (ts : List Transaction) : List Row :=
  if ts.isEmpty then []
  else
    let dc := identificar_coluna_data cols
    let rows := montarTabela cols ts
    if cols.contains dc && !rows.isEmpty then
      sortAscendingDroppingInvalid sortf dc rows
    else rows


/-- The bounds guaranteed for every successfully parsed date: calendar
validity and the `pd.Timestamp` range. -/
def ValidD (dt : SDate) : Prop :=
  1 ≤ dt.m ∧ dt.m ≤ 12 ∧ 1 ≤ dt.d ∧ dt.d ≤ daysInMonth dt.y dt.m ∧
    sdateLe ⟨1677, 9, 22⟩ dt = true ∧ sdateLe dt ⟨2262, 4, 11⟩ = true

/-- `insL` is a permutation of consing. -/
theorem insL_perm (le : α → α → Bool) (x : α) :
    ∀ l : List α, (insL le x l).Perm (x :: l) := by
  intro l
  induction l with
  | nil => simp [insL]
  | cons y ys ih =>
    unfold insL
    by_cases hc : (le y x && !le x y) = true
    · rw [if_pos hc]
      exact (ih.cons y).trans (List.Perm.swap x y ys)
    · rw [if_neg hc]

/-- `isort` permutes its input. -/
theorem isort_perm (le : α → α → Bool) :
    ∀ l : List α, (isort le l).Perm l := by
  intro l
  induction l with
  | nil => simp [isort]
  | cons x xs ih => exact (insL_perm le x (isort le xs)).trans (ih.cons x)

/-- `insLA` is a permutation of consing. -/
theorem insLA_perm (le : α → α → Bool) (x : α) :
    ∀ l : List α, (insLA le x l).Perm (x :: l) := by
  intro l
  induction l with
  | nil => simp [insLA]
  | cons y ys ih =>
    unfold insLA
    by_cases hc : le y x = true
    · rw [if_pos hc]
      exact (ih.cons y).trans (List.Perm.swap x y ys)
    · rw [if_neg hc]

/-- `isortA` permutes its input. -/
theorem isortA_perm (le : α → α → Bool) :
    ∀ l : List α, (isortA le l).Perm l := by
  intro l
  induction l with
  | nil => simp [isortA]
  | cons x xs ih => exact (insLA_perm le x (isortA le xs)).trans (ih.cons x)

/-- `insL` keeps a sorted list sorted, for a total transitive comparison. -/
theorem insL_pairwise (le : α → α → Bool)
    (htot : ∀ a b, (le a b || le b a) = true)
    (htr : ∀ a b c, le a b = true → le b c = true → le a c = true)
    (x : α) :
    ∀ l : List α, l.Pairwise (fun a b => le a b = true) →
      (insL le x l).Pairwise (fun a b => le a b = true) := by
  intro l
  induction l with
  | nil => intro _; simp [insL]
  | cons y ys ih =>
    intro h
    rw [List.pairwise_cons] at h
    obtain ⟨hy, hys⟩ := h
    unfold insL
    by_cases hc : (le y x && !le x y) = true
    · rw [if_pos hc]
      rw [Bool.and_eq_true, Bool.not_eq_eq_eq_not, Bool.not_true] at hc
      rw [List.pairwise_cons]
      refine ⟨?_, ih hys⟩
      intro a ha
      rcases List.mem_cons.mp (((insL_perm le x ys).mem_iff).mp ha) with h1 | h2
      · subst h1; exact hc.1
      · exact hy a h2
    · rw [if_neg hc]
      rw [Bool.and_eq_true, Bool.not_eq_eq_eq_not, Bool.not_true] at hc
      push_neg at hc
      have hxy : le x y = true := by
        by_cases h1 : le y x = true
        · have := hc h1
          simpa using this
        · have := htot x y
          rw [Bool.or_eq_true] at this
          rcases this with h | h
          · exact h
          · exact absurd h h1
      rw [List.pairwise_cons, List.pairwise_cons]
      exact ⟨fun a ha => by
        rcases List.mem_cons.mp ha with h1 | h2
        · subst h1; exact hxy
        · exact htr x y a hxy (hy a h2), hy, hys⟩

/-- `isort` produces a sorted list, for a total transitive comparison. -/
theorem isort_pairwise (le : α → α → Bool)
    (htot : ∀ a b, (le a b || le b a) = true)
    (htr : ∀ a b c, le a b = true → le b c = true → le a c = true)
    (l : List α) :
    (isort le l).Pairwise (fun a b => le a b = true) := by
  induction l with
  | nil => simp [isort]
  | cons x xs ih => exact insL_pairwise le htot htr x (isort le xs) ih

/-- `insLA` keeps a sorted list sorted, for a total transitive
comparison. -/
theorem insLA_pairwise (le : α → α → Bool)
    (htot : ∀ a b, (le a b || le b a) = true)
    (htr : ∀ a b c, le a b = true → le b c = true → le a c = true)
    (x : α) :
    ∀ l : List α, l.Pairwise (fun a b => le a b = true) →
      (insLA le x l).Pairwise (fun a b => le a b = true) := by
  intro l
  induction l with
  | nil => intro _; simp [insLA]
  | cons y ys ih =>
    intro h
    rw [List.pairwise_cons] at h
    obtain ⟨hy, hys⟩ := h
    unfold insLA
    by_cases hc : le y x = true
    · rw [if_pos hc]
      rw [List.pairwise_cons]
      refine ⟨?_, ih hys⟩
      intro a ha
      rcases List.mem_cons.mp (((insLA_perm le x ys).mem_iff).mp ha) with h1 | h2
      · subst h1; exact hc
      · exact hy a h2
    · rw [if_neg hc]
      have hxy : le x y = true := by
        have := htot x y
        rw [Bool.or_eq_true] at this
        rcases this with h | h
        · exact h
        · exact absurd h hc
      rw [List.pairwise_cons, List.pairwise_cons]
      exact ⟨fun a ha => by
        rcases List.mem_cons.mp ha with h1 | h2
        · subst h1; exact hxy
        · exact htr x y a hxy (hy a h2), hy, hys⟩

/-- `isortA` produces a sorted list, for a total transitive comparison. -/
theorem isortA_pairwise (le : α → α → Bool)
    (htot : ∀ a b, (le a b || le b a) = true)
    (htr : ∀ a b c, le a b = true → le b c = true → le a c = true)
    (l : List α) :
    (isortA le l).Pairwise (fun a b => le a b = true) := by
  induction l with
  | nil => simp [isortA]
  | cons x xs ih => exact insLA_pairwise le htot htr x (isortA le xs) ih

/-- The date comparison is total. -/
theorem sdateLe_total (a b : SDate) : (sdateLe a b || sdateLe b a) = true := by
  simp only [sdateLe, Bool.or_eq_true, Bool.and_eq_true, decide_eq_true_eq,
    beq_iff_eq]
  omega

/-- The date comparison is transitive. -/
theorem sdateLe_trans (a b c : SDate) (h1 : sdateLe a b = true)
    (h2 : sdateLe b c = true) : sdateLe a c = true := by
  simp only [sdateLe, Bool.or_eq_true, Bool.and_eq_true, decide_eq_true_eq,
    beq_iff_eq] at h1 h2 ⊢
  omega

/-- The `NaT`-last key comparison is total. -/
theorem okeyLe_total (a b : Option SDate × Row) :
    (okeyLe a b || okeyLe b a) = true := by
  unfold okeyLe
  rcases a with ⟨_ | x, ra⟩ <;> rcases b with ⟨_ | y, rb⟩ <;> simp
  have := sdateLe_total x y
  rw [Bool.or_eq_true] at this
  exact this

/-- The `NaT`-last key comparison is transitive. -/
theorem okeyLe_trans (a b c : Option SDate × Row) (h1 : okeyLe a b = true)
    (h2 : okeyLe b c = true) : okeyLe a c = true := by
  unfold okeyLe at h1 h2 ⊢
  rcases a with ⟨_ | x, ra⟩ <;> rcases b with ⟨_ | y, rb⟩ <;>
    rcases c with ⟨_ | z, rc⟩ <;> simp_all
  exact sdateLe_trans x y z h1 h2

/-- The date comparison is antisymmetric. -/
theorem sdateLe_antisymm (a b : SDate) (h1 : sdateLe a b = true)
    (h2 : sdateLe b a = true) : a = b := by
  obtain ⟨ay, am, ad⟩ := a
  obtain ⟨cy, cm, cd⟩ := b
  simp only [sdateLe, Bool.or_eq_true, Bool.and_eq_true, decide_eq_true_eq,
    beq_iff_eq] at h1 h2
  have : ay = cy ∧ am = cm ∧ ad = cd := by omega
  obtain ⟨e1, e2, e3⟩ := this
  subst e1; subst e2; subst e3
  rfl

/-- The stable insertion sort meets the documented `sort_values`
contract. -/
theorem isSortValues_isort : IsSortValues (isort okeyLe) :=
  fun l => ⟨isort_perm okeyLe l,
    isort_pairwise okeyLe okeyLe_total okeyLe_trans l⟩

/-- The anti-stable insertion sort also meets the documented
`sort_values` contract. -/
theorem isSortValues_isortA : IsSortValues (isortA okeyLe) :=
  fun l => ⟨isortA_perm okeyLe l,
    isortA_pairwise okeyLe okeyLe_total okeyLe_trans l⟩

/-- A list sorted without ties in the comparison is the only sorted
arrangement of its elements: any sorted permutation of it is itself. -/
theorem sorted_perm_eq {α : Type} (le : α → α → Bool) :
    ∀ l l2 : List α,
      l.Pairwise (fun a b => le a b = true ∧ le b a = false) →
      l2.Perm l → l2.Pairwise (fun a b => le a b = true) → l2 = l := by
  intro l
  induction l with
  | nil =>
    intro l2 _ hperm _
    exact hperm.eq_nil
  | cons x xs ih =>
    intro l2 hstrict hperm hsorted
    cases l2 with
    | nil =>
      have := hperm.length_eq
      simp at this
    | cons y ys =>
      rw [List.pairwise_cons] at hstrict
      obtain ⟨hx, hxs⟩ := hstrict
      rw [List.pairwise_cons] at hsorted
      obtain ⟨hy, hys⟩ := hsorted
      have hyx : y = x := by
        by_contra hne
        have hymem : y ∈ x :: xs := hperm.subset (by simp)
        have hyxs : y ∈ xs := by
          rcases List.mem_cons.mp hymem with h | h
          · exact absurd h hne
          · exact h
        have hxmem : x ∈ y :: ys := hperm.symm.subset (by simp)
        have hxys : x ∈ ys := by
          rcases List.mem_cons.mp hxmem with h | h
          · exact absurd h.symm hne
          · exact h
        have h1 := (hx y hyxs).2
        have h2 := hy x hxys
        rw [h2] at h1
        exact absurd h1 (by simp)
      subst hyx
      have hperm2 : ys.Perm xs := hperm.cons_inv
      rw [ih ys hxs hperm2 hys]


/-- Replacing the value at a key changes exactly the first matching
entry seen by `find?`. -/
theorem find?_map_replace (r : Row) (k : String) (v : Cell) :
    (r.map (fun p => if p.1 == k then (p.1, v) else p)).find?
        (fun p => p.1 == k) =
      (r.find? (fun p => p.1 == k)).map (fun p => (p.1, v)) := by
  induction r with
  | nil => rfl
  | cons q t ih =>
    by_cases hq : (q.1 == k) = true
    · simp only [List.map_cons, List.find?_cons, hq, if_pos hq]
      simp [hq]
    · simp only [List.map_cons, List.find?_cons, if_neg hq]
      simp only [hq]
      simpa [hq] using ih

/-- Entries at other keys survive the replacement unchanged. -/
theorem find?_map_replace_ne (r : Row) (k0 k : String) (v : Cell)
    (hk : (k0 == k) = false) :
    (r.map (fun p => if p.1 == k0 then (p.1, v) else p)).find?
        (fun p => p.1 == k) =
      r.find? (fun p => p.1 == k) := by
  induction r with
  | nil => rfl
  | cons q t ih =>
    by_cases hq0 : (q.1 == k0) = true
    · have hqk : (q.1 == k) = false := by
        have h1 := beq_iff_eq.mp hq0
        rw [h1]
        exact hk
      simp only [List.map_cons, List.find?_cons, if_pos hq0, hqk]
      simpa [hqk] using ih
    · simp only [List.map_cons, List.find?_cons, if_neg hq0]
      by_cases hqk : (q.1 == k) = true
      · simp [hqk]
      · simp only [hqk]
        simpa [hqk] using ih

/-- Keys are preserved by the in-place replacement, so the presence test
of `dictSet` is stable under it. -/
theorem any_map_replace (r : Row) (k : String) (v : Cell)
    (ha : (r.any (fun p => p.1 == k)) = true) :
    ((r.map (fun p => if p.1 == k then (p.1, v) else p)).any
      (fun p => p.1 == k)) = true := by
  rw [List.any_eq_true] at ha ⊢
  obtain ⟨x, hx, hpx⟩ := ha
  exact ⟨(x.1, v), List.mem_map.mpr ⟨x, hx, by simp [hpx]⟩, hpx⟩

/-- Looking up the key just assigned returns the assigned value. -/
theorem rowGet_dictSet_same (r : Row) (k : String) (v : Cell) :
    rowGet (dictSet r k v) k = some v := by
  unfold dictSet rowGet
  by_cases ha : (r.any (fun p => p.1 == k)) = true
  · rw [if_pos ha, find?_map_replace]
    rw [List.any_eq_true] at ha
    obtain ⟨x, hx, hpx⟩ := ha
    have hne : r.find? (fun p => p.1 == k) ≠ none := by
      rw [ne_eq, List.find?_eq_none]
      push_neg
      exact ⟨x, hx, by simpa using hpx⟩
    rcases hf : r.find? (fun p => p.1 == k) with _ | p
    · exact absurd hf hne
    · rw [hf]
      rfl
  · rw [if_neg ha]
    have hnone : r.find? (fun p => p.1 == k) = none := by
      rw [List.find?_eq_none]
      intro x hx
      rcases hb : (x.1 == k) with _ | _
      · simp
      · exact absurd (List.any_eq_true.mpr ⟨x, hx, hb⟩) ha
    rw [List.find?_append, hnone]
    simp

/-- Assigning one key leaves lookups at other keys unchanged. -/
theorem rowGet_dictSet_ne (r : Row) (k0 k : String) (v : Cell)
    (hk : k0 ≠ k) :
    rowGet (dictSet r k0 v) k = rowGet r k := by
  have hb : (k0 == k) = false := by
    rcases hx : (k0 == k) with _ | _
    · rfl
    · exact absurd (beq_iff_eq.mp hx) hk
  unfold dictSet rowGet
  by_cases ha : (r.any (fun p => p.1 == k0)) = true
  · rw [if_pos ha, find?_map_replace_ne r k0 k v hb]
  · rw [if_neg ha, List.find?_append]
    rcases hf : r.find? (fun p => p.1 == k) with _ | p
    · simp [hb]
    · rw [hf]
      rfl

/-- Re-assigning the same key keeps only the last value. -/
theorem dictSet_dictSet_same (r : Row) (k : String) (v w : Cell) :
    dictSet (dictSet r k v) k w = dictSet r k w := by
  unfold dictSet
  by_cases ha : (r.any (fun p => p.1 == k)) = true
  · rw [if_pos ha, if_pos (any_map_replace r k v ha), if_pos ha,
      List.map_map]
    congr 1
    funext p
    by_cases hp : (p.1 == k) = true
    · have he : p.1 = k := beq_iff_eq.mp hp
      simp [he]
    · rw [Bool.not_eq_true] at hp
      have he : p.1 ≠ k := by
        intro hEq
        rw [hEq] at hp
        simp at hp
      simp [he]
  · rw [if_neg ha]
    have ha2 : ((r ++ [(k, v)]).any (fun p => p.1 == k)) = true := by
      rw [List.any_eq_true]
      exact ⟨(k, v), by simp, by simp⟩
    rw [if_pos ha2, if_neg ha, List.map_append]
    have hr : r.map (fun p => if p.1 == k then (p.1, w) else p) = r := by
      have : ∀ p ∈ r, (fun p : String × Cell =>
          if p.1 == k then (p.1, w) else p) p = id p := by
        intro p hp
        have hpk : (p.1 == k) = false := by
          rcases hx : (p.1 == k) with _ | _
          · rfl
          · exact absurd (List.any_eq_true.mpr ⟨p, hp, hx⟩) ha
        simp [hpk]
      rw [List.map_congr_left this, List.map_id]
    rw [hr]
    simp


/-- A digit character is a digit. -/
theorem isDig_digChar (n : Nat) (h : n ≤ 9) : isDig (digChar n) = true := by
  interval_cases n <;> rfl

/-- A digit character is not a slash. -/
theorem digChar_ne_slash (n : Nat) (h : n ≤ 9) : (digChar n == '/') = false := by
  interval_cases n <;> rfl

/-- The code of a digit character recovers the digit. -/
theorem digChar_toNat (n : Nat) (h : n ≤ 9) : (digChar n).toNat = 48 + n := by
  interval_cases n <;> rfl

/-- Months never exceed 31 days. -/
theorem daysInMonth_le (y m : Nat) : daysInMonth y m ≤ 31 := by
  unfold daysInMonth
  split
  · split <;> omega
  · split <;> omega

/-- Reading digits off a zero-padded two-digit rendering recovers the
number and the remainder. -/
theorem take12_pad2 (n : Nat) (hn : n ≤ 99) (rest : List Char) :
    take12 (pad2 n ++ rest) = some (n, rest) := by
  have hdig : ∀ k : Nat, k % 10 ≤ 9 := fun k => by omega
  show take12 (digChar (n / 10 % 10) :: digChar (n % 10) :: rest) =
    some (n, rest)
  unfold take12
  dsimp only
  rw [if_pos (isDig_digChar (n / 10 % 10) (hdig (n / 10)))]
  rw [if_pos (isDig_digChar (n % 10) (hdig n))]
  rw [digChar_toNat (n / 10 % 10) (hdig (n / 10)), digChar_toNat (n % 10) (hdig n)]
  have he : 10 * (48 + n / 10 % 10 - 48) + (48 + n % 10 - 48) = n := by omega
  rw [he]

/-- Reading digits off a zero-padded four-digit rendering recovers the
number and the remainder. -/
theorem take4_pad4 (n : Nat) (hn : n ≤ 9999) (rest : List Char) :
    take4 (pad4 n ++ rest) = some (n, rest) := by
  have hdig : ∀ k : Nat, k % 10 ≤ 9 := fun k => by omega
  show take4 (digChar (n / 1000 % 10) :: digChar (n / 100 % 10) ::
    digChar (n / 10 % 10) :: digChar (n % 10) :: rest) = some (n, rest)
  unfold take4
  dsimp only
  rw [if_pos (by
    rw [isDig_digChar (n / 1000 % 10) (hdig (n / 1000)),
      isDig_digChar (n / 100 % 10) (hdig (n / 100)),
      isDig_digChar (n / 10 % 10) (hdig (n / 10)),
      isDig_digChar (n % 10) (hdig n)]
    rfl)]
  rw [digChar_toNat (n / 1000 % 10) (hdig (n / 1000)),
    digChar_toNat (n / 100 % 10) (hdig (n / 100)),
    digChar_toNat (n / 10 % 10) (hdig (n / 10)),
    digChar_toNat (n % 10) (hdig n)]
  have he : 1000 * (48 + n / 1000 % 10 - 48) + 100 * (48 + n / 100 % 10 - 48) +
      10 * (48 + n / 10 % 10 - 48) + (48 + n % 10 - 48) = n := by omega
  rw [he]

/-- A zero-padded rendering never starts with a space, so the day token
reader reduces to the plain digit reader on it. -/
theorem takeDay_pad2 (n : Nat) (hn : n ≤ 99) (rest : List Char) :
    takeDay (pad2 n ++ rest) = some (n, rest) := by
  unfold takeDay
  split
  case h_1 b rest2 heq =>
    exfalso
    rw [show pad2 n ++ rest =
      digChar (n / 10 % 10) :: digChar (n % 10) :: rest from rfl] at heq
    injection heq with h1 _
    have h2 := congrArg Char.toNat h1
    rw [digChar_toNat (n / 10 % 10) (by omega)] at h2
    have h3 : (' ' : Char).toNat = 32 := rfl
    rw [h3] at h2
    omega
  case h_2 =>
    exact take12_pad2 n hn rest

/-- A successfully parsed date satisfies the calendar and `Timestamp`
bounds enforced by the parser. -/
theorem parseDMY_valid (s : String) (dt : SDate) (h : parseDMY s = some dt) :
    ValidD dt := by
  unfold parseDMY at h
  split at h
  case h_1 => exact absurd h (by simp)
  case h_2 dd r1 heq1 =>
    split at h
    case h_2 => exact absurd h (by simp)
    case h_1 r2 =>
      split at h
      case h_1 => exact absurd h (by simp)
      case h_2 mm r3 heq2 =>
        split at h
        case h_2 => exact absurd h (by simp)
        case h_1 r4 =>
          split at h
          case h_1 => exact absurd h (by simp)
          case h_2 yy r5 heq3 =>
            split at h
            case isFalse => exact absurd h (by simp)
            case isTrue hcond =>
              injection h with h
              subst h
              simp only [Bool.and_eq_true, decide_eq_true_eq] at hcond
              obtain ⟨⟨⟨⟨_, hm1, hm2⟩, hd1, hd2⟩, hlo⟩, hhi⟩ := hcond
              exact ⟨hm1, hm2, hd1, hd2, hlo, hhi⟩

/-- Rendering a valid parsed date and parsing it back is the identity:
the parser accepts the zero-padded rendering and the bounds carry over. -/
theorem parseDMY_renderDMY (dt : SDate) (hv : ValidD dt) :
    parseDMY (renderDMY dt) = some dt := by
  obtain ⟨y, m, d⟩ := dt
  obtain ⟨hm1, hm2, hd1, hd2, hlo, hhi⟩ := hv
  simp only at hm1 hm2 hd1 hd2
  have hy : y ≤ 9999 := by
    simp only [sdateLe, Bool.or_eq_true, Bool.and_eq_true, decide_eq_true_eq,
      beq_iff_eq] at hhi
    omega
  have hd99 : d ≤ 99 := le_trans hd2 (le_trans (daysInMonth_le y m) (by omega))
  show parseDMY (String.mk (pad2 d ++ '/' :: pad2 m ++ '/' :: pad4 y)) = _
  unfold parseDMY
  rw [show (String.mk (pad2 d ++ '/' :: pad2 m ++ '/' :: pad4 y)).data =
    pad2 d ++ '/' :: pad2 m ++ '/' :: pad4 y from rfl]
  rw [List.append_assoc, List.cons_append]
  simp only [takeDay_pad2 d hd99]
  simp only [take12_pad2 m (by omega : m ≤ 99)]
  simp only [show take4 (pad4 y) = take4 (pad4 y ++ []) from by
    rw [List.append_nil], take4_pad4 y hy []]
  rw [if_pos (by
    simp only [List.isEmpty_nil, Bool.and_eq_true, decide_eq_true_eq,
      Bool.true_and]
    exact ⟨⟨⟨⟨hm1, hm2⟩, hd1, hd2⟩, hlo⟩, hhi⟩)]


/-- The date comparison is reflexive. -/
theorem sdateLe_refl (a : SDate) : sdateLe a a = true := by
  have h := sdateLe_total a a
  rwa [Bool.or_self] at h

/-- A row key satisfies the calendar and `Timestamp` bounds. -/
theorem rowKey_validD (dc : String) (r : Row) (dt : SDate)
    (h : rowKey dc r = some dt) : ValidD dt := by
  unfold rowKey at h
  split at h
  case h_1 str heq => exact parseDMY_valid str dt h
  case h_2 => exact absurd h (by simp)

/-- Re-rendering a valid date into the date cell makes the row key that
date again. -/
theorem rowKey_dictSet_render (dc : String) (r : Row) (dt : SDate)
    (hv : ValidD dt) :
    rowKey dc (dictSet r dc (.s (renderDMY dt))) = some dt := by
  unfold rowKey
  rw [rowGet_dictSet_same]
  exact parseDMY_renderDMY dt hv

/-- Every key kept by the drop satisfies the calendar and `Timestamp`
bounds. -/
theorem kept_validD (dc : String) (rows : List Row) (p : SDate × Row)
    (hp : p ∈ rows.filterMap (fun r => (rowKey dc r).map (fun dt => (dt, r)))) :
    ValidD p.1 := by
  rw [List.mem_filterMap] at hp
  obtain ⟨r, _, hr⟩ := hp
  rw [Option.map_eq_some'] at hr
  obtain ⟨dt, hdt, hpd⟩ := hr
  have : p.1 = dt := by rw [← hpd]
  rw [this]
  exact rowKey_validD dc r dt hdt

/-- The date block unfolded: key the rows, sort with the ambient
routine, drop the `NaT` keys, re-render the kept dates. -/
theorem sortStep_unfold
    (sortf : List (Option SDate × Row) → List (Option SDate × Row))
    (dc : String) (rows : List Row) :
    sortAscendingDroppingInvalid sortf dc rows =
      ((sortf (rows.map (fun r => (rowKey dc r, r)))).filterMap
        (fun p => p.1.map (fun dt => (dt, p.2)))).map
          (fun p => dictSet p.2 dc (Cell.s (renderDMY p.1))) := rfl

/-- For any routine meeting the `sort_values` contract, the kept keyed
rows are a permutation of the parse-surviving rows in input order. -/
theorem kept_perm
    (sortf : List (Option SDate × Row) → List (Option SDate × Row))
    (hs : IsSortValues sortf) (dc : String) (rows : List Row) :
    ((sortf (rows.map (fun r => (rowKey dc r, r)))).filterMap
        (fun p => p.1.map (fun dt => (dt, p.2)))).Perm
      (rows.filterMap (fun r => (rowKey dc r).map (fun dt => (dt, r)))) := by
  have h1 := (hs (rows.map (fun r => (rowKey dc r, r)))).1.filterMap
    (fun p : Option SDate × Row => p.1.map (fun dt => (dt, p.2)))
  have h2 : ((rows.map (fun r => (rowKey dc r, r))).filterMap
      (fun p : Option SDate × Row => p.1.map (fun dt => (dt, p.2)))) =
      rows.filterMap (fun r => (rowKey dc r).map (fun dt => (dt, r))) := by
    rw [List.filterMap_map]
    rfl
  rw [h2] at h1
  exact h1

/-- Dropping the `NaT` rows of a key-sorted list leaves the kept rows
sorted by parsed date. -/
theorem pairwise_filterMap_dates (l : List (Option SDate × Row))
    (h : l.Pairwise (fun a b => okeyLe a b = true)) :
    (l.filterMap (fun p => p.1.map (fun dt => (dt, p.2)))).Pairwise
      (fun a b : SDate × Row => sdateLe a.1 b.1 = true) := by
  induction l with
  | nil => exact List.Pairwise.nil
  | cons x t ih =>
    rw [List.pairwise_cons] at h
    obtain ⟨hx, ht⟩ := h
    rcases x with ⟨o, r⟩
    cases o with
    | none =>
      show (t.filterMap (fun p => p.1.map (fun dt => (dt, p.2)))).Pairwise
        (fun a b : SDate × Row => sdateLe a.1 b.1 = true)
      exact ih ht
    | some d =>
      show ((d, r) :: t.filterMap
          (fun p => p.1.map (fun dt => (dt, p.2)))).Pairwise
        (fun a b : SDate × Row => sdateLe a.1 b.1 = true)
      rw [List.pairwise_cons]
      refine ⟨?_, ih ht⟩
      intro b hb
      rw [List.mem_filterMap] at hb
      obtain ⟨q, hq, hlift⟩ := hb
      rcases q with ⟨oq, rq⟩
      cases oq with
      | none => exact absurd hlift (by simp)
      | some dq =>
        have hbe : some (dq, rq) = some b := hlift
        injection hbe with hbe
        subst hbe
        exact hx (some dq, rq) hq

/-- Reading the keys back off a finalised table keeps every row and
recovers its parsed date. -/
theorem filterMap_rowKey_fin (dc : String) :
    ∀ l : List (SDate × Row), (∀ p ∈ l, ValidD p.1) →
      ((l.map (fun p => dictSet p.2 dc (Cell.s (renderDMY p.1)))).filterMap
        (fun r => rowKey dc r)) = l.map (fun p => p.1) := by
  intro l
  induction l with
  | nil => intro _; rfl
  | cons p t ih =>
    intro hv
    have hp := hv p (by simp)
    have hkey := rowKey_dictSet_render dc p.2 p.1 hp
    simp only [List.map_cons, List.filterMap_cons, hkey]
    rw [ih (fun q hq => hv q (by simp [hq]))]

/-- The parsed keys of the parse-surviving rows, in input order. -/
theorem kept_keys_eq (dc : String) (rows : List Row) :
    ((rows.filterMap (fun r => (rowKey dc r).map (fun dt => (dt, r)))).map
        (fun p : SDate × Row => p.1)) =
      rows.filterMap (fun r => rowKey dc r) := by
  induction rows with
  | nil => rfl
  | cons r t ih =>
    cases hk : rowKey dc r with
    | none =>
      simp only [List.filterMap_cons, hk, Option.map_none']
      exact ih
    | some d =>
      simp only [List.filterMap_cons, hk, Option.map_some', List.map_cons]
      rw [ih]

/-- Dropping after re-rendering keyed-and-finalised rows keeps them
all. -/
theorem filterMap_lift_map_some (g : SDate × Row → Row) :
    ∀ l : List (SDate × Row),
      ((l.map (fun p => ((some p.1 : Option SDate), g p))).filterMap
        (fun p => p.1.map (fun dt => (dt, p.2)))) =
      l.map (fun p => (p.1, g p)) := by
  intro l
  induction l with
  | nil => rfl
  | cons p t ih =>
    simp only [List.map_cons, List.filterMap_cons, Option.map_some']
    rw [ih]

/-- The date block's output is, as a multiset, exactly the
parse-surviving rows with their dates re-rendered. -/
theorem sortStep_perm
    (sortf : List (Option SDate × Row) → List (Option SDate × Row))
    (hs : IsSortValues sortf) (dc : String) (rows : List Row) :
    (sortAscendingDroppingInvalid sortf dc rows).Perm
      ((rows.filterMap (fun r => (rowKey dc r).map (fun dt => (dt, r)))).map
        (fun p => dictSet p.2 dc (Cell.s (renderDMY p.1)))) := by
  rw [sortStep_unfold]
  exact (kept_perm sortf hs dc rows).map
    (fun p : SDate × Row => dictSet p.2 dc (Cell.s (renderDMY p.1)))

/-- Counterexample to C3 as stated: the documented `sort_values`
contract does not determine the order within equal dates, and under the
conforming anti-stable sort a two-row table with equal dates is flipped
by every pass, so applying the date block twice differs from applying it
once. -/
theorem claim_C3_counterexample :
    IsSortValues (isortA okeyLe) ∧
    sortAscendingDroppingInvalid (isortA okeyLe) "Data"
        (sortAscendingDroppingInvalid (isortA okeyLe) "Data"
          [[("Data", Cell.s "02/02/2024"), ("Desc", Cell.s "A")],
           [("Data", Cell.s "02/02/2024"), ("Desc", Cell.s "B")]]) ≠
      sortAscendingDroppingInvalid (isortA okeyLe) "Data"
        [[("Data", Cell.s "02/02/2024"), ("Desc", Cell.s "A")],
         [("Data", Cell.s "02/02/2024"), ("Desc", Cell.s "B")]] :=
  ⟨isSortValues_isortA, by decide⟩

/-- C3 (amended): on tables whose parseable dates are pairwise distinct,
the sort-and-drop step of `processar_fatura` is idempotent, for every
sorting routine meeting the documented `sort_values` contract. -/
theorem claim_C3
    (sortf : List (Option SDate × Row) → List (Option SDate × Row))
    (hs : IsSortValues sortf) (dc : String) (rows : List Row)
    (hdist : (rows.filterMap (fun r => rowKey dc r)).Pairwise
      (fun a b => a ≠ b)) :
    sortAscendingDroppingInvalid sortf dc
        (sortAscendingDroppingInvalid sortf dc rows) =
      sortAscendingDroppingInvalid sortf dc rows := by
  have hkp : ((sortf (rows.map (fun r => (rowKey dc r, r)))).filterMap
      (fun p => p.1.map (fun dt => (dt, p.2)))).Perm
      (rows.filterMap (fun r => (rowKey dc r).map (fun dt => (dt, r)))) :=
    kept_perm sortf hs dc rows
  have hvalid : ∀ p ∈ (sortf (rows.map (fun r => (rowKey dc r, r)))).filterMap
      (fun p => p.1.map (fun dt => (dt, p.2))), ValidD p.1 := by
    intro p hp
    exact kept_validD dc rows p (hkp.mem_iff.mp hp)
  have hsorted : ((sortf (rows.map (fun r => (rowKey dc r, r)))).filterMap
      (fun p => p.1.map (fun dt => (dt, p.2)))).Pairwise
      (fun a b : SDate × Row => sdateLe a.1 b.1 = true) :=
    pairwise_filterMap_dates _ (hs (rows.map (fun r => (rowKey dc r, r)))).2
  have hne : ((sortf (rows.map (fun r => (rowKey dc r, r)))).filterMap
      (fun p => p.1.map (fun dt => (dt, p.2)))).Pairwise
      (fun a b : SDate × Row => a.1 ≠ b.1) := by
    rw [List.Perm.pairwise_iff (fun h he => h he.symm) hkp]
    have h1 : (((rows.filterMap
        (fun r => (rowKey dc r).map (fun dt => (dt, r)))).map
        (fun p : SDate × Row => p.1)).Pairwise
        (fun a b : SDate => a ≠ b)) := by
      rw [kept_keys_eq]
      exact hdist
    rw [List.pairwise_map] at h1
    exact h1
  have hstrict : ((sortf (rows.map (fun r => (rowKey dc r, r)))).filterMap
      (fun p => p.1.map (fun dt => (dt, p.2)))).Pairwise
      (fun a b : SDate × Row =>
        sdateLe a.1 b.1 = true ∧ sdateLe b.1 a.1 = false) := by
    refine (hsorted.and hne).imp ?_
    intro a b hab
    refine ⟨hab.1, ?_⟩
    cases hba : sdateLe b.1 a.1 with
    | false => rfl
    | true => exact absurd (sdateLe_antisymm a.1 b.1 hab.1 hba) hab.2
  have hmap2 : (sortAscendingDroppingInvalid sortf dc rows).map
      (fun r => (rowKey dc r, r)) =
      ((sortf (rows.map (fun r => (rowKey dc r, r)))).filterMap
        (fun p => p.1.map (fun dt => (dt, p.2)))).map
        (fun p : SDate × Row =>
          ((some p.1 : Option SDate), dictSet p.2 dc (Cell.s (renderDMY p.1)))) := by
    rw [sortStep_unfold, List.map_map]
    apply List.map_congr_left
    intro p hp
    show (rowKey dc (dictSet p.2 dc (Cell.s (renderDMY p.1))),
      dictSet p.2 dc (Cell.s (renderDMY p.1))) = _
    rw [rowKey_dictSet_render dc p.2 p.1 (hvalid p hp)]
  have hstrict2 : ((sortAscendingDroppingInvalid sortf dc rows).map
      (fun r => (rowKey dc r, r))).Pairwise
      (fun a b => okeyLe a b = true ∧ okeyLe b a = false) := by
    rw [hmap2, List.pairwise_map]
    refine hstrict.imp ?_
    intro a b hab
    exact hab
  have heq : sortf ((sortAscendingDroppingInvalid sortf dc rows).map
      (fun r => (rowKey dc r, r))) =
      (sortAscendingDroppingInvalid sortf dc rows).map
        (fun r => (rowKey dc r, r)) :=
    sorted_perm_eq okeyLe _ _ hstrict2
      (hs ((sortAscendingDroppingInvalid sortf dc rows).map
        (fun r => (rowKey dc r, r)))).1
      (hs ((sortAscendingDroppingInvalid sortf dc rows).map
        (fun r => (rowKey dc r, r)))).2
  rw [sortStep_unfold sortf dc (sortAscendingDroppingInvalid sortf dc rows)]
  rw [heq, hmap2]
  rw [filterMap_lift_map_some
    (fun p : SDate × Row => dictSet p.2 dc (Cell.s (renderDMY p.1)))]
  rw [List.map_map]
  have hfinal : ∀ p ∈ (sortf (rows.map (fun r => (rowKey dc r, r)))).filterMap
      (fun p => p.1.map (fun dt => (dt, p.2))),
      ((fun q : SDate × Row => dictSet q.2 dc (Cell.s (renderDMY q.1))) ∘
        (fun q : SDate × Row =>
          (q.1, dictSet q.2 dc (Cell.s (renderDMY q.1))))) p =
      dictSet p.2 dc (Cell.s (renderDMY p.1)) := by
    intro p _
    show dictSet (dictSet p.2 dc (Cell.s (renderDMY p.1))) dc
      (Cell.s (renderDMY p.1)) = _
    rw [dictSet_dictSet_same]
  rw [List.map_congr_left hfinal]
  exact (sortStep_unfold sortf dc rows).symm

/-- Witness for C3 (amended): with the conforming stable sort and a
two-row table with distinct dates, the date block is idempotent. -/
theorem claim_C3_witness :
    sortAscendingDroppingInvalid (isort okeyLe) "Data"
        (sortAscendingDroppingInvalid (isort okeyLe) "Data"
          [[("Data", Cell.s "03/01/2024")], [("Data", Cell.s "01/01/2024")]]) =
      sortAscendingDroppingInvalid (isort okeyLe) "Data"
        [[("Data", Cell.s "03/01/2024")], [("Data", Cell.s "01/01/2024")]] :=
  claim_C3 (isort okeyLe) isSortValues_isort "Data"
    [[("Data", Cell.s "03/01/2024")], [("Data", Cell.s "01/01/2024")]]
    (by decide)

/-- Counterexample to C4 as stated: the documented `sort_values`
contract does not force stability — a conforming sort reverses two
equal-dated rows, so rows with equal dates need not keep their input
order through the date block. -/
theorem claim_C4_counterexample :
    IsSortValues (isortA okeyLe) ∧
    sortAscendingDroppingInvalid (isortA okeyLe) "Data"
        [[("Data", Cell.s "01/01/2024"), ("Desc", Cell.s "A")],
         [("Data", Cell.s "01/01/2024"), ("Desc", Cell.s "B")]] =
      [[("Data", Cell.s "01/01/2024"), ("Desc", Cell.s "B")],
       [("Data", Cell.s "01/01/2024"), ("Desc", Cell.s "A")]] ∧
    ([[("Data", Cell.s "01/01/2024"), ("Desc", Cell.s "B")],
      [("Data", Cell.s "01/01/2024"), ("Desc", Cell.s "A")]] : List Row) ≠
      [[("Data", Cell.s "01/01/2024"), ("Desc", Cell.s "A")],
       [("Data", Cell.s "01/01/2024"), ("Desc", Cell.s "B")]] :=
  ⟨isSortValues_isortA, rfl, by decide⟩

/-- C4 (amended): for every sorting routine meeting the documented
`sort_values` contract, the date block keeps, as a multiset, exactly the
rows whose date cell parses under `to_datetime(format='%d/%m/%Y',
errors='coerce')` — each with its date re-rendered zero-padded — and
emits them in non-decreasing parsed-date order, the order within equal
dates being implementation-defined; and on the spec scenario the
05/01/2024 row comes before the 10/01/2024 row. -/
theorem claim_C4 :
    (∀ (sortf : List (Option SDate × Row) → List (Option SDate × Row)),
      IsSortValues sortf → ∀ (dc : String) (rows : List Row),
      (sortAscendingDroppingInvalid sortf dc rows).Perm
        ((rows.filterMap (fun r => (rowKey dc r).map (fun dt => (dt, r)))).map
          (fun p => dictSet p.2 dc (Cell.s (renderDMY p.1))))) ∧
    (∀ (sortf : List (Option SDate × Row) → List (Option SDate × Row)),
      IsSortValues sortf → ∀ (dc : String) (rows : List Row),
      ((sortAscendingDroppingInvalid sortf dc rows).filterMap
        (fun r => rowKey dc r)).Pairwise (fun a b => sdateLe a b = true)) ∧
    (∀ (sortf : List (Option SDate × Row) → List (Option SDate × Row)),
      IsSortValues sortf →
      processar_fatura_tabela sortf
          ["Data Vencimento", "Descricao Completa", "Valor Total", "Obs"]
          [{ data := "10/01/2024", descricao := "A", valor := 1,
             observacao := "A" },
           { data := "05/01/2024", descricao := "B", valor := 2,
             observacao := "B" }] =
        [[("Data Vencimento", Cell.s "05/01/2024"),
          ("Descricao Completa", Cell.s "B"), ("Valor Total", Cell.q 2),
          ("Obs", Cell.s "B")],
         [("Data Vencimento", Cell.s "10/01/2024"),
          ("Descricao Completa", Cell.s "A"), ("Valor Total", Cell.q 1),
          ("Obs", Cell.s "A")]]) := by
  refine ⟨fun sortf hs dc rows => sortStep_perm sortf hs dc rows, ?_, ?_⟩
  · intro sortf hs dc rows
    have hvalid : ∀ p ∈ (sortf (rows.map
        (fun r => (rowKey dc r, r)))).filterMap
        (fun p => p.1.map (fun dt => (dt, p.2))), ValidD p.1 := by
      intro p hp
      exact kept_validD dc rows p
        ((kept_perm sortf hs dc rows).mem_iff.mp hp)
    have hsorted := pairwise_filterMap_dates _
      (hs (rows.map (fun r => (rowKey dc r, r)))).2
    rw [sortStep_unfold, filterMap_rowKey_fin dc _ hvalid, List.pairwise_map]
    exact hsorted
  · intro sortf hs
    have hpipe : processar_fatura_tabela sortf
        ["Data Vencimento", "Descricao Completa", "Valor Total", "Obs"]
        [{ data := "10/01/2024", descricao := "A", valor := 1,
           observacao := "A" },
         { data := "05/01/2024", descricao := "B", valor := 2,
           observacao := "B" }] =
        sortAscendingDroppingInvalid sortf
          (identificar_coluna_data
            ["Data Vencimento", "Descricao Completa", "Valor Total", "Obs"])
          (montarTabela
            ["Data Vencimento", "Descricao Completa", "Valor Total", "Obs"]
            [{ data := "10/01/2024", descricao := "A", valor := 1,
               observacao := "A" },
             { data := "05/01/2024", descricao := "B", valor := 2,
               observacao := "B" }]) := rfl
    rw [hpipe, sortStep_unfold]
    have hk : (montarTabela
        ["Data Vencimento", "Descricao Completa", "Valor Total", "Obs"]
        [{ data := "10/01/2024", descricao := "A", valor := 1,
           observacao := "A" },
         { data := "05/01/2024", descricao := "B", valor := 2,
           observacao := "B" }]).map
        (fun r => (rowKey (identificar_coluna_data
          ["Data Vencimento", "Descricao Completa", "Valor Total", "Obs"]) r,
          r)) =
        [((some ⟨2024, 1, 10⟩ : Option SDate),
          [("Data Vencimento", Cell.s "10/01/2024"),
           ("Descricao Completa", Cell.s "A"), ("Valor Total", Cell.q 1),
           ("Obs", Cell.s "A")]),
         ((some ⟨2024, 1, 5⟩ : Option SDate),
          [("Data Vencimento", Cell.s "05/01/2024"),
           ("Descricao Completa", Cell.s "B"), ("Valor Total", Cell.q 2),
           ("Obs", Cell.s "B")])] := rfl
    rw [hk]
    have hstrictC : ([((some ⟨2024, 1, 5⟩ : Option SDate),
        [("Data Vencimento", Cell.s "05/01/2024"),
         ("Descricao Completa", Cell.s "B"), ("Valor Total", Cell.q 2),
         ("Obs", Cell.s "B")]),
       ((some ⟨2024, 1, 10⟩ : Option SDate),
        [("Data Vencimento", Cell.s "10/01/2024"),
         ("Descricao Completa", Cell.s "A"), ("Valor Total", Cell.q 1),
         ("Obs", Cell.s "A")])] :
        List (Option SDate × Row)).Pairwise
        (fun a b => okeyLe a b = true ∧ okeyLe b a = false) := by
      refine List.pairwise_cons.mpr ⟨?_, List.pairwise_cons.mpr
        ⟨fun b hb => absurd hb (List.not_mem_nil b), List.Pairwise.nil⟩⟩
      intro b hb
      rw [List.mem_singleton] at hb
      subst hb
      exact ⟨rfl, rfl⟩
    have hpermC : ([((some ⟨2024, 1, 10⟩ : Option SDate),
        [("Data Vencimento", Cell.s "10/01/2024"),
         ("Descricao Completa", Cell.s "A"), ("Valor Total", Cell.q 1),
         ("Obs", Cell.s "A")]),
       ((some ⟨2024, 1, 5⟩ : Option SDate),
        [("Data Vencimento", Cell.s "05/01/2024"),
         ("Descricao Completa", Cell.s "B"), ("Valor Total", Cell.q 2),
         ("Obs", Cell.s "B")])] :
        List (Option SDate × Row)).Perm
        [((some ⟨2024, 1, 5⟩ : Option SDate),
          [("Data Vencimento", Cell.s "05/01/2024"),
           ("Descricao Completa", Cell.s "B"), ("Valor Total", Cell.q 2),
           ("Obs", Cell.s "B")]),
         ((some ⟨2024, 1, 10⟩ : Option SDate),
          [("Data Vencimento", Cell.s "10/01/2024"),
           ("Descricao Completa", Cell.s "A"), ("Valor Total", Cell.q 1),
           ("Obs", Cell.s "A")])] :=
      List.Perm.swap
        ((some ⟨2024, 1, 5⟩ : Option SDate),
          [("Data Vencimento", Cell.s "05/01/2024"),
           ("Descricao Completa", Cell.s "B"), ("Valor Total", Cell.q 2),
           ("Obs", Cell.s "B")])
        ((some ⟨2024, 1, 10⟩ : Option SDate),
          [("Data Vencimento", Cell.s "10/01/2024"),
           ("Descricao Completa", Cell.s "A"), ("Valor Total", Cell.q 1),
           ("Obs", Cell.s "A")])
        []
    have hEq := sorted_perm_eq okeyLe _ _ hstrictC
      ((hs _).1.trans hpermC) (hs _).2
    rw [hEq]
    rfl

/-- Witness for C4 (amended): instantiated at the conforming stable
sort, the scenario table sorts the 05/01/2024 row first. -/
theorem claim_C4_witness :
    processar_fatura_tabela (isort okeyLe)
        ["Data Vencimento", "Descricao Completa", "Valor Total", "Obs"]
        [{ data := "10/01/2024", descricao := "A", valor := 1,
           observacao := "A" },
         { data := "05/01/2024", descricao := "B", valor := 2,
           observacao := "B" }] =
      [[("Data Vencimento", Cell.s "05/01/2024"),
        ("Descricao Completa", Cell.s "B"), ("Valor Total", Cell.q 2),
        ("Obs", Cell.s "B")],
       [("Data Vencimento", Cell.s "10/01/2024"),
        ("Descricao Completa", Cell.s "A"), ("Valor Total", Cell.q 1),
        ("Obs", Cell.s "A")]] :=
  claim_C4.2.2 (isort okeyLe) isSortValues_isort


/-- The resolved date column is one of the template columns whenever the
template is non-empty. -/
theorem identificar_mem (cols : List String) (h : cols ≠ []) :
    cols.contains (identificar_coluna_data cols) = true := by
  unfold identificar_coluna_data
  rcases hf : possiveis_nomes.find? (fun nome => cols.contains nome) with _ | nome
  · cases cols with
    | nil => exact absurd rfl h
    | cons c t => simp [List.headD]
  · exact List.find?_some hf

/-- Dropping loses nothing exactly when every element survives. -/
theorem length_filterMap_eq_iff {α β : Type} (f : α → Option β) :
    ∀ l : List α,
      ((l.filterMap f).length = l.length ↔ ∀ a ∈ l, (f a).isSome = true) := by
  intro l
  induction l with
  | nil => simp
  | cons a t ih =>
    rcases hf : f a with _ | b
    · simp only [List.filterMap_cons, hf, List.length_cons]
      constructor
      · intro h
        exfalso
        have hle := List.length_filterMap_le f t
        omega
      · intro h
        have := h a (by simp)
        rw [hf] at this
        simp at this
    · simp only [List.filterMap_cons, hf, List.length_cons]
      constructor
      · intro h
        intro x hx
        rcases List.mem_cons.mp hx with h1 | h2
        · subst h1
          rw [hf]
          rfl
        · exact (ih.mp (by omega)) x h2
      · intro h
        have := ih.mpr (fun x hx => h x (by simp [hx]))
        omega

/-- Lookup after a guarded assignment: the assigned value when the guard
selected this key, the previous binding otherwise. -/
theorem rowGet_condSet (o : Option String) (r : Row) (v : Cell) (c : String) :
    rowGet (condSet r o v) c = if o = some c then some v else rowGet r c := by
  rcases o with _ | cx
  · rw [if_neg (by simp)]
    rfl
  · show rowGet (dictSet r cx v) c = _
    by_cases hcx : cx = c
    · subst hcx
      rw [if_pos rfl, rowGet_dictSet_same]
    · rw [if_neg (by simpa using hcx), rowGet_dictSet_ne _ _ _ _ hcx]

/-- Under the no-collision condition, the date cell of a projected row is
exactly the transaction's date field. -/
theorem montarLinha_rowKey (cols : List String) (t : Transaction)
    (hd : firstKeyCol descKeys cols ≠ some (identificar_coluna_data cols))
    (hv : firstKeyCol valorKeys cols ≠ some (identificar_coluna_data cols))
    (ho : firstKeyCol obsKeys cols ≠ some (identificar_coluna_data cols)) :
    rowKey (identificar_coluna_data cols)
        (montarLinha cols (identificar_coluna_data cols) t) =
      parseDMY t.data := by
  have hget : rowGet (montarLinha cols (identificar_coluna_data cols) t)
      (identificar_coluna_data cols) = some (.s t.data) := by
    unfold montarLinha
    rw [rowGet_condSet, if_neg ho, rowGet_condSet, if_neg hv, rowGet_condSet,
      if_neg hd, rowGet_dictSet_same]
  unfold rowKey
  rw [hget]

/-- Mapping does not change whether an optional value is present. -/
theorem isSome_map {α β : Type} (f : α → β) (o : Option α) :
    (o.map f).isSome = o.isSome := by
  cases o <;> rfl

/-- Counterexample to C5 as stated: with the template `["Data Obs"]` the
single column is resolved as the date column but is then overwritten by
the note role, so the row is dropped although the transaction's date
field parses, and the final table is strictly shorter (shown under the
conforming stable sort). -/
theorem claim_C5_counterexample :
    IsSortValues (isort okeyLe) ∧
    (∀ t ∈ [Transaction.mk "05/03/2024" "MERCADO LIVRE" 120 "MERCADO LIVRE"],
      (parseDMY t.data).isSome = true) ∧
    (processar_fatura_tabela (isort okeyLe) ["Data Obs"]
        [Transaction.mk "05/03/2024" "MERCADO LIVRE" 120 "MERCADO LIVRE"]).length ≠
      [Transaction.mk "05/03/2024" "MERCADO LIVRE" 120 "MERCADO LIVRE"].length := by
  refine ⟨isSortValues_isort, ?_, ?_⟩
  · intro t ht
    rw [List.mem_singleton] at ht
    subst ht
    rfl
  · have hl : (processar_fatura_tabela (isort okeyLe) ["Data Obs"]
        [Transaction.mk "05/03/2024" "MERCADO LIVRE" 120 "MERCADO LIVRE"]).length
        = 0 := rfl
    rw [hl]
    simp

/-- C5 (amended): provided the resolved date column is not also chosen
by the description, value or note role, and for every sorting routine
meeting the documented `sort_values` contract, the final table is never
longer than the parsed transaction list, with equality exactly when
every transaction's date field parses under
`to_datetime(format='%d/%m/%Y', errors='coerce')`; rows with unparseable
dates are dropped individually. -/
theorem claim_C5
    (sortf : List (Option SDate × Row) → List (Option SDate × Row))
    (hsort : IsSortValues sortf)
    (cols : List String) (ts : List Transaction)
    (hne : cols ≠ [])
    (hd : firstKeyCol descKeys cols ≠ some (identificar_coluna_data cols))
    (hv : firstKeyCol valorKeys cols ≠ some (identificar_coluna_data cols))
    (ho : firstKeyCol obsKeys cols ≠ some (identificar_coluna_data cols)) :
    (processar_fatura_tabela sortf cols ts).length ≤ ts.length ∧
      ((processar_fatura_tabela sortf cols ts).length = ts.length ↔
        ∀ t ∈ ts, (parseDMY t.data).isSome = true) := by
  cases ts with
  | nil =>
    constructor
    · simp [processar_fatura_tabela]
    · simp [processar_fatura_tabela]
  | cons t0 rest =>
    have hguard : (cols.contains (identificar_coluna_data cols) &&
        !(montarTabela cols (t0 :: rest)).isEmpty) = true := by
      rw [identificar_mem cols hne]
      simp [montarTabela]
    have hpipe : processar_fatura_tabela sortf cols (t0 :: rest) =
        sortAscendingDroppingInvalid sortf (identificar_coluna_data cols)
          (montarTabela cols (t0 :: rest)) := by
      unfold processar_fatura_tabela
      rw [if_neg (by simp), if_pos hguard]
    rw [hpipe]
    have hlen : (sortAscendingDroppingInvalid sortf
        (identificar_coluna_data cols)
        (montarTabela cols (t0 :: rest))).length =
        ((montarTabela cols (t0 :: rest)).filterMap
          (fun r => (rowKey (identificar_coluna_data cols) r).map
            (fun d => (d, r)))).length := by
      rw [(sortStep_perm sortf hsort (identificar_coluna_data cols)
        (montarTabela cols (t0 :: rest))).length_eq, List.length_map]
    rw [hlen]
    unfold montarTabela
    rw [List.filterMap_map]
    have hfun : ((fun r => (rowKey (identificar_coluna_data cols) r).map
          (fun d => (d, r))) ∘
        montarLinha cols (identificar_coluna_data cols)) =
        fun t : Transaction => (parseDMY t.data).map
          (fun d => (d, montarLinha cols (identificar_coluna_data cols) t)) := by
      funext t
      show (rowKey (identificar_coluna_data cols)
          (montarLinha cols (identificar_coluna_data cols) t)).map _ = _
      rw [montarLinha_rowKey cols t hd hv ho]
    rw [hfun]
    constructor
    · exact List.length_filterMap_le _ _
    · rw [length_filterMap_eq_iff]
      constructor
      · intro h t ht
        have := h t ht
        rwa [isSome_map] at this
      · intro h t ht
        rw [isSome_map]
        exact h t ht

/-- Witness for C5 (amended): under the conforming stable sort the
scenario template has no role collision, and with one well-dated
transaction the final table keeps its single row. -/
theorem claim_C5_witness :
    (processar_fatura_tabela (isort okeyLe)
        ["Data Vencimento", "Descricao Completa", "Valor Total", "Obs"]
        [Transaction.mk "05/03/2024" "MERCADO LIVRE" 120 "MERCADO LIVRE"]).length
        ≤ 1 ∧
      ((processar_fatura_tabela (isort okeyLe)
          ["Data Vencimento", "Descricao Completa", "Valor Total", "Obs"]
          [Transaction.mk "05/03/2024" "MERCADO LIVRE" 120 "MERCADO LIVRE"]).length
          = 1 ↔
        ∀ t ∈ [Transaction.mk "05/03/2024" "MERCADO LIVRE" 120 "MERCADO LIVRE"],
          (parseDMY t.data).isSome = true) :=
  claim_C5 (isort okeyLe) isSortValues_isort
    ["Data Vencimento", "Descricao Completa", "Valor Total", "Obs"]
    [Transaction.mk "05/03/2024" "MERCADO LIVRE" 120 "MERCADO LIVRE"]
    (by simp) (by decide) (by decide) (by decide)

/-- Lookup in the default row built over a prefix of columns. -/
theorem rowGet_initAux (cols : List String) :
    ∀ (r0 : Row) (c : String),
      rowGet (cols.foldl (fun r cx => dictSet r cx (.s "")) r0) c =
        if c ∈ cols then some (.s "") else rowGet r0 c := by
  induction cols with
  | nil =>
    intro r0 c
    rw [if_neg (by simp)]
    rfl
  | cons d rest ih =>
    intro r0 c
    show rowGet (rest.foldl (fun r cx => dictSet r cx (.s ""))
      (dictSet r0 d (.s ""))) c = _
    rw [ih]
    by_cases hr : c ∈ rest
    · rw [if_pos hr, if_pos (by simp [hr])]
    · rw [if_neg hr]
      by_cases hdc : d = c
      · subst hdc
        rw [rowGet_dictSet_same, if_pos (by simp)]
      · have hcd : ¬ c = d := fun h => hdc h.symm
        rw [rowGet_dictSet_ne _ _ _ _ hdc, if_neg (by simp [hr, hcd])]

/-- Every template column is defaulted to the empty string before the
role assignments. -/
theorem rowGet_initRow (cols : List String) (c : String) (hc : c ∈ cols) :
    rowGet (initRow cols) c = some (.s "") := by
  unfold initRow
  rw [rowGet_initAux, if_pos hc]

/-- C9: the projected row maps every template column to the transaction
value selected for it (note over value over description keyword matches,
then the resolved date column) or to the empty-string default; and the
spec scenario template produces exactly the expected row. -/
theorem claim_C9 :
    (∀ (cols : List String) (t : Transaction) (c : String), cols ≠ [] →
      c ∈ cols →
      rowGet (montarLinha cols (identificar_coluna_data cols) t) c =
        some (projSpecCell cols t c)) ∧
    montarLinha ["Data Vencimento", "Descricao Completa", "Valor Total", "Obs"]
        (identificar_coluna_data
          ["Data Vencimento", "Descricao Completa", "Valor Total", "Obs"])
        (Transaction.mk "05/03/2024" "MERCADO LIVRE" 120 "MERCADO LIVRE") =
      [("Data Vencimento", Cell.s "05/03/2024"),
       ("Descricao Completa", Cell.s "MERCADO LIVRE"),
       ("Valor Total", Cell.q 120),
       ("Obs", Cell.s "MERCADO LIVRE")] := by
  constructor
  · intro cols t c _hne hc
    unfold montarLinha projSpecCell
    rw [rowGet_condSet]
    by_cases h3 : firstKeyCol obsKeys cols = some c
    · rw [if_pos h3, if_pos h3]
    · rw [if_neg h3, if_neg h3, rowGet_condSet]
      by_cases h2 : firstKeyCol valorKeys cols = some c
      · rw [if_pos h2, if_pos h2]
      · rw [if_neg h2, if_neg h2, rowGet_condSet]
        by_cases h1 : firstKeyCol descKeys cols = some c
        · rw [if_pos h1, if_pos h1]
        · rw [if_neg h1, if_neg h1]
          by_cases hcd : c = identificar_coluna_data cols
          · subst hcd
            rw [rowGet_dictSet_same, if_pos rfl]
          · rw [rowGet_dictSet_ne _ _ _ _ (fun h => hcd h.symm),
              if_neg hcd, rowGet_initRow cols c hc]
  · rfl

/-- C1: a trimmed line matched by the Santander primary grammar whose
parsed amount is positive yields exactly one `Transaction` whose amount
is the decimal value of the matched amount token after deleting dots and
turning the comma into a dot; a matching line with non-positive parsed
amount yields nothing. -/
theorem claim_C1 :
    (∀ (linha : String) (caps : Caps) (d desc v : String) (q : ℚ),
      reSearch santanderRE linha = some caps →
      capGet caps 1 = some d → capGet caps 2 = some desc →
      capGet caps 3 = some v →
      pythonFloat (valorSubst v) = some q → 0 < q →
      santanderLinha linha =
        .ok [{ data := d, descricao := pyStrip desc, valor := q,
               observacao := pyStrip desc }]) ∧
    (∀ (linha : String) (caps : Caps) (d desc v : String) (q : ℚ),
      reSearch santanderRE linha = some caps →
      capGet caps 1 = some d → capGet caps 2 = some desc →
      capGet caps 3 = some v →
      pythonFloat (valorSubst v) = some q → q ≤ 0 →
      santanderLinha linha = .ok []) := by
  constructor <;>
  · intro linha caps d desc v q h1 h2 h3 h4 h5 h6
    simp only [santanderLinha, h1, h2, h3, h4, h5]
    first
      | rw [if_pos h6]
      | rw [if_neg (not_lt.mpr h6)]

/-- Witness for C1: the spec scenario line yields exactly the expected
transaction with amount 45.90. -/
theorem claim_C1_witness :
    santanderLinha "01/03/2024 UBER TRIP 45,90 9,18 5,000" =
      .ok [{ data := "01/03/2024", descricao := "UBER TRIP",
             valor := (459 : ℚ) / 10, observacao := "UBER TRIP" }] := by
  have hf : pythonFloat (valorSubst "45,90") = some ((459 : ℚ) / 10) := by
    have h0 : pythonFloat (valorSubst "45,90")
        = some ((1 : ℚ) * (((45 : ℕ) : ℚ) + ((90 : ℕ) : ℚ) / (10 : ℚ) ^ (2 : ℕ))) := rfl
    rw [h0]; norm_num
  exact claim_C1.1 "01/03/2024 UBER TRIP 45,90 9,18 5,000"
    [(3, "45,90"), (2, "UBER TRIP"), (1, "01/03/2024")]
    "01/03/2024" "UBER TRIP" "45,90" ((459 : ℚ) / 10)
    rfl rfl rfl rfl hf (by norm_num)

/-- C2: a non-boilerplate line matched by the Sicoob grammar whose
parsed amount is positive yields exactly one `Transaction` whose date is
the matched `DD/MM` completed with the supplied year, and whose amount is
the decimal value of the matched amount token; a matching line with
non-positive parsed amount yields nothing. -/
theorem claim_C2 :
    (∀ (ano : Nat) (linha : String) (caps : Caps) (d desc v : String) (q : ℚ),
      sicoobBoiler linha = false →
      reSearch sicoobRE linha = some caps →
      capGet caps 1 = some d → capGet caps 2 = some desc →
      capGet caps 3 = some v →
      pythonFloat (valorSubst v) = some q → 0 < q →
      sicoobLinha ano linha =
        .ok [{ data := d ++ "/" ++ toString ano, descricao := pyStrip desc,
               valor := q, observacao := pyStrip desc }]) ∧
    (∀ (ano : Nat) (linha : String) (caps : Caps) (d desc v : String) (q : ℚ),
      sicoobBoiler linha = false →
      reSearch sicoobRE linha = some caps →
      capGet caps 1 = some d → capGet caps 2 = some desc →
      capGet caps 3 = some v →
      pythonFloat (valorSubst v) = some q → q ≤ 0 →
      sicoobLinha ano linha = .ok []) := by
  constructor <;>
  · intro ano linha caps d desc v q h0 h1 h2 h3 h4 h5 h6
    simp only [sicoobLinha, h0, h1, h2, h3, h4, h5, Bool.false_eq_true,
      if_false]
    first
      | rw [if_pos h6]
      | rw [if_neg (not_lt.mpr h6)]

/-- Witness for C2: the spec scenario line with year 2024 yields exactly
the expected transaction dated 05/03/2024 with amount 120.00. -/
theorem claim_C2_witness :
    sicoobLinha 2024 "05/03 MERCADO LIVRE 120,00" =
      .ok [{ data := "05/03/2024", descricao := "MERCADO LIVRE",
             valor := (120 : ℚ), observacao := "MERCADO LIVRE" }] := by
  have hf : pythonFloat (valorSubst "120,00") = some ((120 : ℚ)) := by
    have h0 : pythonFloat (valorSubst "120,00")
        = some ((1 : ℚ) * (((120 : ℕ) : ℚ) + ((0 : ℕ) : ℚ) / (10 : ℚ) ^ (2 : ℕ))) := rfl
    rw [h0]; norm_num
  exact claim_C2.1 2024 "05/03 MERCADO LIVRE 120,00"
    [(3, "120,00"), (2, "MERCADO LIVRE"), (1, "05/03")]
    "05/03" "MERCADO LIVRE" "120,00" (120 : ℚ)
    rfl rfl rfl rfl rfl hf (by norm_num)

/-- C7: a line that fails the Santander primary pattern but matches the
negative-amount fallback emits no transaction. -/
theorem claim_C7 (linha : String)
    (h1 : reSearch santanderRE linha = none)
    (_h2 : (reSearch santanderNegRE linha).isSome = true) :
    santanderLinha linha = .ok [] := by
  simp only [santanderLinha, h1]
  cases hx : reSearch santanderNegRE linha <;> simp

/-- Witness for C7: a concrete reversal line is matched by the fallback
pattern, fails the primary pattern, and emits nothing. -/
theorem claim_C7_witness :
    santanderLinha "01/03/2024 ESTORNO COMPRA -45,90" = .ok [] :=
  claim_C7 "01/03/2024 ESTORNO COMPRA -45,90" rfl rfl

/-- C8: a Sicoob line containing one of the boilerplate markers emits no
transaction, regardless of its remaining content. -/
theorem claim_C8 (ano : Nat) (linha : String)
    (h : sicoobBoiler linha = true) :
    sicoobLinha ano linha = .ok [] := by
  simp only [sicoobLinha, h, if_true]

/-- Witness for C8: a concrete boilerplate line with amount-shaped
content emits nothing. -/
theorem claim_C8_witness :
    sicoobLinha 2024 "05/03 TOTAL 120,00" = .ok [] :=
  claim_C8 2024 "05/03 TOTAL 120,00" rfl

/-- C10 is refuted by the code: the Sicoob amount pattern's sign class
`[-,]?` accepts a leading comma, and on the line `01/02 LOJA ,123,45`
the matched amount `,123,45` is rewritten to `.123.45`, which
`float` cannot parse, so the parser raises instead of skipping — the
model evaluates to an error. -/
theorem claim_C10_bug :
    processar_formato_sicoob "01/02 LOJA ,123,45" 2024 = .error () := rfl

/-- Witness for C9: the value column of the scenario template receives
the amount cell prescribed by the projection policy. -/
theorem claim_C9_witness :
    rowGet (montarLinha
        ["Data Vencimento", "Descricao Completa", "Valor Total", "Obs"]
        (identificar_coluna_data
          ["Data Vencimento", "Descricao Completa", "Valor Total", "Obs"])
        (Transaction.mk "05/03/2024" "MERCADO LIVRE" 120 "MERCADO LIVRE"))
        "Valor Total" =
      some (projSpecCell
        ["Data Vencimento", "Descricao Completa", "Valor Total", "Obs"]
        (Transaction.mk "05/03/2024" "MERCADO LIVRE" 120 "MERCADO LIVRE")
        "Valor Total") :=
  claim_C9.1 ["Data Vencimento", "Descricao Completa", "Valor Total", "Obs"]
    (Transaction.mk "05/03/2024" "MERCADO LIVRE" 120 "MERCADO LIVRE")
    "Valor Total" (by simp) (by simp)

/-- A successful first alternative makes the choice succeed. -/
theorem oElse_isSome_left (a b : Option Caps) (h : a.isSome = true) :
    (oElse a b).isSome = true := by
  cases ha : a with
  | none => rw [ha] at h; simp at h
  | some v => simp [oElse, ha]

/-- A successful second alternative makes the choice succeed. -/
theorem oElse_isSome_right (a b : Option Caps) (h : b.isSome = true) :
    (oElse a b).isSome = true := by
  cases ha : a with
  | none => simpa [oElse, ha] using h
  | some v => simp [oElse, ha]

/-- Completeness of the backtracking matcher: a sized membership
derivation guarantees a successful search, for any fuel at least the
derivation size and any continuation that succeeds on the remainder. -/
theorem mat_complete {n : Nat} {r : RE} {xs : List Char}
    (der : LangN n r xs) :
    ∀ f : Nat, n ≤ f → ∀ (rest : List Char) (caps : Caps)
      (k : List Char → Caps → Option Caps),
      (∀ caps2, (k rest caps2).isSome = true) →
      (mat f r (xs ++ rest) caps k).isSome = true := by
  induction der with
  | leps =>
    intro f hf rest caps k hk
    cases f with
    | zero => omega
    | succ f' => exact hk caps
  | lcls hpc =>
    intro f hf rest caps k hk
    cases f with
    | zero => omega
    | succ f' =>
      show (if _ = true then k rest caps else none).isSome = true
      rw [if_pos hpc]
      exact hk caps
  | lseq dera derb iha ihb =>
    intro f hf rest caps k hk
    cases f with
    | zero => omega
    | succ f' =>
      rw [List.append_assoc]
      exact iha f' (by omega) _ caps _
        (fun caps2 => ihb f' (by omega) rest caps2 k hk)
  | laltL b der ih =>
    intro f hf rest caps k hk
    cases f with
    | zero => omega
    | succ f' =>
      exact oElse_isSome_left _ _ (ih f' (by omega) rest caps k hk)
  | laltR a der ih =>
    intro f hf rest caps k hk
    cases f with
    | zero => omega
    | succ f' =>
      exact oElse_isSome_right _ _ (ih f' (by omega) rest caps k hk)
  | lgrp i der ih =>
    intro f hf rest caps k hk
    cases f with
    | zero => omega
    | succ f' =>
      exact ih f' (by omega) rest caps _
        (fun caps2 => hk _)
  | lgstar0 =>
    intro f hf rest caps k hk
    cases f with
    | zero => omega
    | succ f' => exact oElse_isSome_right _ _ (hk caps)
  | @lgstarS m1 n1 a1 xs1 ys1 derx hne dery ihx ihy =>
    intro f hf rest caps k hk
    cases f with
    | zero => omega
    | succ f' =>
      apply oElse_isSome_left
      rw [List.append_assoc]
      apply ihx f' (by omega) _ caps _
      intro caps2
      have hlt : (ys1 ++ rest).length < (xs1 ++ (ys1 ++ rest)).length := by
        simp only [List.length_append]
        have hx : 0 < xs1.length := List.length_pos.mpr hne
        omega
      show (if _ < _ then _ else none).isSome = true
      rw [if_pos hlt]
      exact ihy f' (by omega) rest caps2 k hk
  | llstar0 =>
    intro f hf rest caps k hk
    cases f with
    | zero => omega
    | succ f' => exact oElse_isSome_left _ _ (hk caps)
  | @llstarS m1 n1 a1 xs1 ys1 derx hne dery ihx ihy =>
    intro f hf rest caps k hk
    cases f with
    | zero => omega
    | succ f' =>
      apply oElse_isSome_right
      rw [List.append_assoc]
      apply ihx f' (by omega) _ caps _
      intro caps2
      have hlt : (ys1 ++ rest).length < (xs1 ++ (ys1 ++ rest)).length := by
        simp only [List.length_append]
        have hx : 0 < xs1.length := List.length_pos.mpr hne
        omega
      show (if _ < _ then _ else none).isSome = true
      rw [if_pos hlt]
      exact ihy f' (by omega) rest caps2 k hk

/-- Derivation for the greedy one-to-three-digit atom. -/
theorem lang_d13 (d0 : List Char) (hne : d0 ≠ []) (hlen : d0.length ≤ 3)
    (hdig : ∀ c ∈ d0, isDig c = true) :
    ∃ n, LangN n d13 d0 ∧ n ≤ 8 := by
  rcases d0 with _ | ⟨a, _ | ⟨b, _ | ⟨c, _ | ⟨d, t⟩⟩⟩⟩
  · exact absurd rfl hne
  · refine ⟨4, ?_, by omega⟩
    exact LangN.lseq (LangN.lcls (hdig a (by simp)))
      (LangN.laltR _ LangN.leps)
  · refine ⟨7, ?_, by omega⟩
    exact LangN.lseq (LangN.lcls (hdig a (by simp)))
      (LangN.laltL _ (LangN.lseq (LangN.lcls (hdig b (by simp)))
        (LangN.laltR _ LangN.leps)))
  · refine ⟨7, ?_, by omega⟩
    exact LangN.lseq (LangN.lcls (hdig a (by simp)))
      (LangN.laltL _ (LangN.lseq (LangN.lcls (hdig b (by simp)))
        (LangN.laltL _ (LangN.lcls (hdig c (by simp))))))
  · simp [List.length_cons] at hlen

/-- Derivation for the lazy any-character star over a newline-free list. -/
theorem lang_starL_any (t : List Char) (h : ∀ c ∈ t, (c == '\n') = false) :
    ∃ n, LangN n (.starL anyCls) t ∧ n ≤ 2 * t.length + 1 := by
  induction t with
  | nil => exact ⟨1, LangN.llstar0, by omega⟩
  | cons c t ih =>
    obtain ⟨n', d', hb⟩ := ih (fun x hx => h x (by simp [hx]))
    refine ⟨1 + n' + 1, ?_, by simp [List.length_cons]; omega⟩
    show LangN (1 + n' + 1) (.starL anyCls) ([c] ++ t)
    exact LangN.llstarS (LangN.lcls (by
      rw [h c (by simp)]
      rfl)) (by simp) d'

/-- Derivation for the lazy non-empty description atom `.+?`. -/
theorem lang_desc (l : List Char) (hne : l ≠ [])
    (h : ∀ c ∈ l, (c == '\n') = false) :
    ∃ n, LangN n (rep1L anyCls) l ∧ n ≤ 2 * l.length + 2 := by
  rcases l with _ | ⟨c, t⟩
  · exact absurd rfl hne
  · obtain ⟨n', d', hb⟩ := lang_starL_any t (fun x hx => h x (by simp [hx]))
    refine ⟨1 + n' + 1, ?_, by simp [List.length_cons]; omega⟩
    show LangN (1 + n' + 1) (rep1L anyCls) ([c] ++ t)
    exact LangN.lseq (LangN.lcls (by
      rw [h c (by simp)]
      rfl)) d'

/-- Derivation for one mandatory space matched by greedy `\s+`. -/
theorem lang_sp1 : LangN 3 (rep1G spCls) [' '] := by
  show LangN 3 (rep1G spCls) ([' '] ++ [])
  exact LangN.lseq (LangN.lcls (by rfl)) LangN.lgstar0

/-- Each thousands group spans four characters. -/
theorem thouCat_length (gs : List (List Char))
    (h : ∀ g ∈ gs, g.length = 3) : (thouCat gs).length = 4 * gs.length := by
  induction gs with
  | nil => rfl
  | cons g t ih =>
    show ('.' :: g ++ thouCat t).length = _
    simp only [List.length_cons, List.length_append]
    rw [h g (by simp), ih (fun x hx => h x (by simp [hx]))]
    simp [List.length_cons]
    omega

/-- Derivation for the greedy star of dot-separated thousands groups. -/
theorem lang_thouCat (gs : List (List Char))
    (h : ∀ g ∈ gs, g.length = 3 ∧ ∀ c ∈ g, isDig c = true) :
    ∃ n, LangN n (.starG thouDot) (thouCat gs) ∧ n ≤ 12 * gs.length + 1 := by
  induction gs with
  | nil => exact ⟨1, LangN.lgstar0, by omega⟩
  | cons g t ih =>
    obtain ⟨n', d', hb⟩ := ih (fun x hx => h x (by simp [hx]))
    obtain ⟨hg3, hgd⟩ := h g (by simp)
    rcases g with _ | ⟨x, _ | ⟨y, _ | ⟨z, _ | ⟨w, r⟩⟩⟩⟩ <;>
      simp [List.length_cons] at hg3
    refine ⟨9 + n' + 1, ?_, by simp [List.length_cons]; omega⟩
    show LangN (9 + n' + 1) (.starG thouDot) (('.' :: [x, y, z]) ++ thouCat t)
    refine LangN.lgstarS ?_ (by simp) d'
    show LangN _ thouDot (['.'] ++ ([x] ++ ([y] ++ ([z] ++ []))))
    exact LangN.lseq (LangN.lcls (by rfl))
      (LangN.lseq (LangN.lcls (hgd x (by simp)))
        (LangN.lseq (LangN.lcls (hgd y (by simp)))
          (LangN.lseq (LangN.lcls (hgd z (by simp)))
            LangN.leps)))

/-- Derivation for a full primary-amount token. -/
theorem lang_amt (l : List Char) (h : AmtShape l) :
    ∃ n, LangN n amtRE l ∧ n ≤ 6 * l.length + 12 := by
  obtain ⟨d0, gs, f1, f2, hl, hne, hlen, hdig, hgs, hf1, hf2⟩ := h
  obtain ⟨n13, d13der, hb13⟩ := lang_d13 d0 hne hlen hdig
  obtain ⟨ng, gder, hbg⟩ := lang_thouCat gs hgs
  have hcat : (thouCat gs).length = 4 * gs.length :=
    thouCat_length gs (fun g hg => (hgs g hg).1)
  subst hl
  refine ⟨n13 + (ng + (1 + (1 + (1 + 1 + 1) + 1) + 1) + 1) + 1, ?_, ?_⟩
  · show LangN _ (.seq d13 (.seq (.starG thouDot)
      (.seq (lit ',') (.seq dCls (.seq dCls .eps)))))
      (d0 ++ (thouCat gs ++ (',' :: f1 :: [f2])))
    refine LangN.lseq d13der (LangN.lseq gder ?_)
    show LangN _ _ ([','] ++ ([f1] ++ ([f2] ++ [])))
    exact LangN.lseq (LangN.lcls (by rfl))
      (LangN.lseq (LangN.lcls hf1)
        (LangN.lseq (LangN.lcls hf2) LangN.leps))
  · have hlc : (d0 ++ (thouCat gs ++ (',' :: f1 :: [f2]))).length =
        d0.length + 4 * gs.length + 3 := by
      simp [List.length_append, List.length_cons, hcat]
      omega
    rw [hlc]
    have h1 : 1 ≤ d0.length := List.length_pos.mpr hne
    omega

/-- Each rate group spans four characters. -/
theorem rateCat_length (gs : List (Char × List Char))
    (h : ∀ p ∈ gs, p.2.length = 3) : (rateCat gs).length = 4 * gs.length := by
  induction gs with
  | nil => rfl
  | cons g t ih =>
    rcases g with ⟨sep, dd⟩
    show (sep :: dd ++ rateCat t).length = _
    simp only [List.length_cons, List.length_append]
    rw [h (sep, dd) (by simp), ih (fun x hx => h x (by simp [hx]))]
    simp [List.length_cons]
    omega

/-- Derivation for the greedy star of dot-or-comma separated groups. -/
theorem lang_rateCat (gs : List (Char × List Char))
    (h : ∀ p ∈ gs, (p.1 == '.' || p.1 == ',') = true ∧ p.2.length = 3 ∧
      ∀ c ∈ p.2, isDig c = true) :
    ∃ n, LangN n (.starG thouDC) (rateCat gs) ∧ n ≤ 12 * gs.length + 1 := by
  induction gs with
  | nil => exact ⟨1, LangN.lgstar0, by omega⟩
  | cons g t ih =>
    obtain ⟨n', d', hb⟩ := ih (fun x hx => h x (by simp [hx]))
    obtain ⟨hsep, hg3, hgd⟩ := h g (by simp)
    rcases g with ⟨sep, dd⟩
    rcases dd with _ | ⟨x, _ | ⟨y, _ | ⟨z, _ | ⟨w, r⟩⟩⟩⟩ <;>
      simp [List.length_cons] at hg3
    refine ⟨9 + n' + 1, ?_, by simp [List.length_cons]; omega⟩
    show LangN (9 + n' + 1) (.starG thouDC) ((sep :: [x, y, z]) ++ rateCat t)
    refine LangN.lgstarS ?_ (by simp) d'
    show LangN _ thouDC ([sep] ++ ([x] ++ ([y] ++ ([z] ++ []))))
    exact LangN.lseq (LangN.lcls hsep)
      (LangN.lseq (LangN.lcls (hgd x (by simp)))
        (LangN.lseq (LangN.lcls (hgd y (by simp)))
          (LangN.lseq (LangN.lcls (hgd z (by simp)))
            LangN.leps)))

/-- Derivation for a full trailing rate token. -/
theorem lang_rate (l : List Char) (h : RateShape l) :
    ∃ n, LangN n rateRE l ∧ n ≤ 6 * l.length + 12 := by
  obtain ⟨d0, gs, hl, hne, hlen, hdig, hgs⟩ := h
  obtain ⟨n13, d13der, hb13⟩ := lang_d13 d0 hne hlen hdig
  obtain ⟨ng, gder, hbg⟩ := lang_rateCat gs hgs
  have hcat : (rateCat gs).length = 4 * gs.length :=
    rateCat_length gs (fun g hg => (hgs g hg).2.1)
  subst hl
  refine ⟨n13 + ng + 1, ?_, ?_⟩
  · exact LangN.lseq d13der gder
  · have hlc : (d0 ++ rateCat gs).length = d0.length + 4 * gs.length := by
      simp [List.length_append, hcat]
    rw [hlc]
    have h1 : 1 ≤ d0.length := List.length_pos.mpr hne
    omega

/-- Derivation for a full `DD/MM/YYYY` date token. -/
theorem lang_date (l : List Char) (h : DateShape l) :
    ∃ n, LangN n dateYRE l ∧ n ≤ 21 := by
  obtain ⟨a, b, c, d, e, f, g, hh, hl, ha, hb, hc, hd, he, hf, hg, hhd⟩ := h
  subst hl
  refine ⟨21, ?_, by omega⟩
  show LangN 21 dateYRE
      ([a] ++ ([b] ++ (['/'] ++ ([c] ++ ([d] ++ (['/'] ++
        ([e] ++ ([f] ++ ([g] ++ ([hh] ++ []))))))))))
  exact LangN.lseq (LangN.lcls ha)
      (LangN.lseq (LangN.lcls hb)
        (LangN.lseq (LangN.lcls (by rfl))
          (LangN.lseq (LangN.lcls hc)
            (LangN.lseq (LangN.lcls hd)
              (LangN.lseq (LangN.lcls (by rfl))
                (LangN.lseq (LangN.lcls he)
                  (LangN.lseq (LangN.lcls hf)
                    (LangN.lseq (LangN.lcls hg)
                      (LangN.lseq (LangN.lcls hhd) LangN.leps)))))))))

/-- A date-shaped token spans ten characters. -/
theorem DateShape_length (l : List Char) (h : DateShape l) : l.length = 10 := by
  obtain ⟨a, b, c, d, e, f, g, hh, hl, _⟩ := h
  subst hl
  rfl

/-- Counterexample to C6 as stated: the line below consists of a date
token, a description, a dot-thousands/comma-decimals primary amount and
one more amount-shaped token, yet the Santander primary pattern does not
match it — the pattern demands a second amount and a rate token after
the primary amount. -/
theorem claim_C6_counterexample :
    DateShape "01/03/2024".data ∧ AmtShape "45,90".data ∧
    AmtShape "9,18".data ∧
    "01/03/2024 UBER TRIP 45,90 9,18".data =
      "01/03/2024".data ++ (' ' :: ("UBER TRIP".data ++ (' ' ::
        ("45,90".data ++ (' ' :: "9,18".data))))) ∧
    reSearch santanderRE "01/03/2024 UBER TRIP 45,90 9,18" = none := by
  refine ⟨?_, ?_, ?_, rfl, rfl⟩
  · exact ⟨'0', '1', '0', '3', '2', '0', '2', '4', rfl, rfl, rfl, rfl, rfl,
      rfl, rfl, rfl, rfl⟩
  · exact ⟨['4', '5'], [], '9', '0', rfl, by simp, by simp, by decide,
      by simp, rfl, rfl⟩
  · exact ⟨['9'], [], '1', '8', rfl, by simp, by simp, by decide,
      by simp, rfl, rfl⟩

/-- C6 (amended): every line consisting of a `DD/MM/YYYY` date token, a
non-empty newline-free description, a primary amount with dot thousands
separators and a comma decimal, and at least two more tokens — a second
amount of the same shape and a rate token — matches the Santander
primary pattern. -/
theorem claim_C6 (ddata desc a1 a2 rt : List Char)
    (hdate : DateShape ddata) (hdesc1 : desc ≠ [])
    (hdesc2 : ∀ c ∈ desc, (c == '\n') = false)
    (ha1 : AmtShape a1) (ha2 : AmtShape a2) (hrt : RateShape rt) :
    (reSearch santanderRE (String.mk
      (ddata ++ (' ' :: (desc ++ (' ' :: (a1 ++ (' ' :: (a2 ++
        (' ' :: rt)))))))))).isSome = true := by
  obtain ⟨nd, derd, hbd⟩ := lang_date ddata hdate
  obtain ⟨nde, derde, hbde⟩ := lang_desc desc hdesc1 hdesc2
  obtain ⟨na1, dera1, hba1⟩ := lang_amt a1 ha1
  obtain ⟨na2, dera2, hba2⟩ := lang_amt a2 ha2
  obtain ⟨nrt, derrt, hbrt⟩ := lang_rate rt hrt
  have derTop := LangN.lseq (LangN.lgrp 1 derd)
    (LangN.lseq lang_sp1
      (LangN.lseq (LangN.lgrp 2 derde)
        (LangN.lseq lang_sp1
          (LangN.lseq (LangN.lgrp 3 dera1)
            (LangN.lseq lang_sp1
              (LangN.lseq dera2
                (LangN.lseq lang_sp1
                  (LangN.lseq derrt LangN.leps))))))))
  have hD : ddata ++ ([' '] ++ (desc ++ ([' '] ++ (a1 ++ ([' '] ++
        (a2 ++ ([' '] ++ (rt ++ [])))))))) =
      ddata ++ (' ' :: (desc ++ (' ' :: (a1 ++ (' ' :: (a2 ++
        (' ' :: rt))))))) := by
    simp
  have hex : ∃ N, LangN N santanderRE
      (ddata ++ (' ' :: (desc ++ (' ' :: (a1 ++ (' ' :: (a2 ++
        (' ' :: rt)))))))) ∧
      N ≤ reFuel (String.mk (ddata ++ (' ' :: (desc ++ (' ' :: (a1 ++
        (' ' :: (a2 ++ (' ' :: rt))))))))) := by
    refine ⟨_, hD ▸ derTop, ?_⟩
    have hdd : ddata.length = 10 := DateShape_length ddata hdate
    have hlenL : (ddata ++ (' ' :: (desc ++ (' ' :: (a1 ++ (' ' ::
        (a2 ++ (' ' :: rt)))))))).length =
        ddata.length + desc.length + a1.length + a2.length + rt.length +
          4 := by
      simp [List.length_append, List.length_cons]
      omega
    show _ ≤ 16 * (String.mk (ddata ++ (' ' :: (desc ++ (' ' :: (a1 ++
      (' ' :: (a2 ++ (' ' :: rt))))))))).length + 128
    have hsl : (String.mk (ddata ++ (' ' :: (desc ++ (' ' :: (a1 ++
        (' ' :: (a2 ++ (' ' :: rt))))))))).length =
        (ddata ++ (' ' :: (desc ++ (' ' :: (a1 ++ (' ' ::
          (a2 ++ (' ' :: rt)))))))).length := rfl
    rw [hsl, hlenL, hdd]
    omega
  obtain ⟨N, der2, hN⟩ := hex
  have hres := mat_complete der2 _ hN [] []
    (fun _ caps => some caps) (fun _ => rfl)
  rw [List.append_nil] at hres
  exact hres

/-- Witness for C6 (amended): the spec scenario line, decomposed into its
five tokens, matches the Santander primary pattern. -/
theorem claim_C6_witness :
    (reSearch santanderRE (String.mk
      ("01/03/2024".data ++ (' ' :: ("UBER TRIP".data ++ (' ' ::
        ("45,90".data ++ (' ' :: ("9,18".data ++
          (' ' :: "5,000".data)))))))))).isSome = true :=
  claim_C6 "01/03/2024".data "UBER TRIP".data "45,90".data "9,18".data
    "5,000".data
    ⟨'0', '1', '0', '3', '2', '0', '2', '4', rfl, rfl, rfl, rfl, rfl, rfl,
      rfl, rfl, rfl⟩
    (by simp) (by decide)
    ⟨['4', '5'], [], '9', '0', rfl, by simp, by simp, by decide, by simp,
      rfl, rfl⟩
    ⟨['9'], [], '1', '8', rfl, by simp, by simp, by decide, by simp,
      rfl, rfl⟩
    ⟨['5'], [(',', ['0', '0', '0'])], rfl, by simp, by simp, by decide,
      by decide⟩
